import Mathlib

/-!
# CppSnake: a shallow embedding of `snake.cpp`

The embedding follows the C++ source function by function.

* `int` coordinates and the score are modelled as `Int`.  Signed overflow is
  undefined behaviour in C++, so the model describes the defined executions
  (coordinates stay within a few units of the 16 x 16 grid).
* `std::vector<Segment>` is a `List Segment`, index 0 being the head.
* The global `std::queue<Direction> inputQueue` is threaded through the snake
  state as the field `inputQueue`; its front is the head of the list.
* Operations that index `segments[0]` or call `segments.back()` are undefined
  on an empty vector and therefore return `Option`.
* `rand()` is a stream of non-negative draws `Nat → Nat`; each call consumes
  the draw at position 0 and shifts the stream.
* `float` time is modelled with exact rationals.
* The food regeneration `while` loop may run forever, so it carries fuel.
-/

namespace CppSnake

/-! ## Constants -/

/-- Source: `const int GRID_WIDTH = 16;` -/
def GRID_WIDTH : Int := 16

/-- Source: `const int GRID_HEIGHT = 16;` -/
def GRID_HEIGHT : Int := 16

/-- Source: `const float moveInterval = 0.12f;` -/
def moveInterval : ℚ := 12 / 100

/-! ## Data model -/

/-- Source: `enum Direction { UP, DOWN, LEFT, RIGHT };` -/
inductive Direction where
  | UP
  | DOWN
  | LEFT
  | RIGHT
  deriving DecidableEq

/-- Source: `struct Segment { int x, y; };` -/
structure Segment where
  x : Int
  y : Int
  deriving DecidableEq

/-- Source: `class Snake` (private members `segments`, `dir`) together with the
global `inputQueue` that its member functions read and write. -/
structure Snake where
  segments : List Segment
  dir : Direction
  inputQueue : List Direction
  deriving DecidableEq

/-- The stream of values returned by successive calls of `rand()`. -/
abbrev Rand := Nat → Nat

/-- Source: the locals of `main` that make up the game session (`snake`, `food`,
`score`, `gameOver`) and the global `moveTimer`. -/
structure Session where
  snake : Snake
  food : Segment
  score : Int
  gameOver : Bool
  moveTimer : ℚ

/-! ## Snake -/

/-- Source: `Snake::Snake()`: three segments, direction RIGHT, queue emptied. -/
def Snake.new : Snake :=
  { segments := [⟨8, 8⟩, ⟨7, 8⟩, ⟨6, 8⟩], dir := Direction.RIGHT, inputQueue := [] }

/-- Source: `Snake::queueDirection`.  `lastDir` is the back of the queue, or the
live direction when the queue is empty. -/
def queueDirection (d : Direction) (s : Snake) : Snake :=
  let lastDir : Direction :=
    match s.inputQueue.getLast? with
    | none => s.dir
    | some b => b
  if (lastDir = Direction.UP ∧ d ≠ Direction.DOWN) ∨
      (lastDir = Direction.DOWN ∧ d ≠ Direction.UP) ∨
      (lastDir = Direction.LEFT ∧ d ≠ Direction.RIGHT) ∨
      (lastDir = Direction.RIGHT ∧ d ≠ Direction.LEFT) then
    if s.inputQueue.length < 2 then
      { s with inputQueue := s.inputQueue ++ [d] }
    else s
  else s

/-- Source: the `switch (dir)` of `Snake::move`, applied to a copy of the head. -/
def offsetHead (d : Direction) (head : Segment) : Segment :=
  match d with
  | Direction.UP => { head with y := head.y - 1 }
  | Direction.DOWN => { head with y := head.y + 1 }
  | Direction.LEFT => { head with x := head.x - 1 }
  | Direction.RIGHT => { head with x := head.x + 1 }

/-- Source: `Snake::move`.  Pops the front of the queue into `dir` when the queue
is non-empty, then inserts the offset head at the front and pops the back. -/
def move (s : Snake) : Option Snake :=
  let s1 : Snake :=
    match s.inputQueue with
    | [] => s
    | newDir :: rest => { s with dir := newDir, inputQueue := rest }
  match s1.segments with
  | [] => none
  | head :: rest =>
    some { s1 with segments := (offsetHead s1.dir head :: head :: rest).dropLast }

/-- Source: `Snake::grow`: `segments.push_back(segments.back())`. -/
def grow (s : Snake) : Option Snake :=
  match s.segments.getLast? with
  | none => none
  | some tail => some { s with segments := s.segments ++ [tail] }

/-- Source: the `for` loop of `Snake::checkSelfCollision`, over the cells after
the head, returning at the first match. -/
def selfCollisionLoop (head : Segment) : List Segment → Bool
  | [] => false
  | seg :: rest =>
    if head.x = seg.x ∧ head.y = seg.y then true else selfCollisionLoop head rest

/-- Source: `Snake::checkSelfCollision`. -/
def checkSelfCollision (s : Snake) : Option Bool :=
  match s.segments with
  | [] => none
  | head :: rest => some (selfCollisionLoop head rest)

/-- Source: `Snake::checkBorderCollision`. -/
def checkBorderCollision (s : Snake) : Option Bool :=
  match s.segments with
  | [] => none
  | head :: _ =>
    some (decide (head.x < 0 ∨ head.x ≥ GRID_WIDTH ∨ head.y < 0 ∨ head.y ≥ GRID_HEIGHT))

/-- Source: `Snake::getHead`: `segments[0]`. -/
def getHead (s : Snake) : Option Segment :=
  s.segments.head?

/-! ## Food -/

/-- Source: `generateFood`: `{rand() % GRID_WIDTH, rand() % GRID_HEIGHT}`; the
two calls of a braced initialiser are evaluated left to right. -/
def generateFood (rng : Rand) : Segment × Rand :=
  ({ x := (rng 0 : Int) % GRID_WIDTH, y := (rng 1 : Int) % GRID_HEIGHT }, fun n => rng (n + 2))

/-- Source: the inner `for (segment : snake.getSegments())` of the regeneration
loop: true when some segment has the coordinates of `food` (the loop breaks at
the first such segment). -/
def foodOnSnake (food : Segment) : List Segment → Bool
  | [] => false
  | segment :: rest =>
    if food.x = segment.x ∧ food.y = segment.y then true else foodOnSnake food rest

/-- Source: `while (onSnake) { ... }` in `main`.  Each iteration scans the body;
on a hit it draws a new candidate and repeats, otherwise the loop ends with the
current candidate.  `none` means the fuel ran out. -/
def regenerateFood : Nat → List Segment → Segment → Rand → Option (Segment × Rand)
  | 0, _, _, _ => none
  | fuel + 1, segments, food, rng =>
    if foodOnSnake food segments then
      regenerateFood fuel segments (generateFood rng).1 (generateFood rng).2
    else some (food, rng)

/-! ## Session -/

/-- Source: the declarations at the start of `main`: `Snake snake;
Segment food = generateFood(); int score = 0; bool gameOver = false;` with the
global `moveTimer = 0.0f`. -/
def initSession (rng : Rand) : Session × Rand :=
  ({ snake := Snake.new, food := (generateFood rng).1, score := 0, gameOver := false,
     moveTimer := 0 }, (generateFood rng).2)

/-- Source: the body of `if (IsKeyPressed(KEY_SPACE))` in the game-over branch. -/
def reset (g : Session) (rng : Rand) : Session × Rand :=
  ({ g with snake := Snake.new, food := (generateFood rng).1, score := 0, gameOver := false,
            moveTimer := 0 }, (generateFood rng).2)

/-- Source: the body of `if (head.x == food.x && head.y == food.y)`:
`snake.grow(); score++; food = generateFood();` followed by the regeneration
loop over the grown body. -/
def eatFood (fuel : Nat) (g : Session) (rng : Rand) : Option (Session × Rand) :=
  match grow g.snake with
  | none => none
  | some grown =>
    match regenerateFood fuel grown.segments (generateFood rng).1 (generateFood rng).2 with
    | none => none
    | some (food, rng1) =>
      some ({ g with snake := grown, score := g.score + 1, food := food }, rng1)

/-- Source: the body of `if (moveTimer >= moveInterval)`: move, reset the timer,
collision check (which only sets `gameOver`), then the food check. -/
def step (fuel : Nat) (g : Session) (rng : Rand) : Option (Session × Rand) :=
  match move g.snake with
  | none => none
  | some moved =>
    match checkSelfCollision moved, checkBorderCollision moved, getHead moved with
    | some selfHit, some borderHit, some head =>
      let g1 : Session :=
        { g with snake := moved, moveTimer := 0,
                 gameOver := if selfHit || borderHit then true else g.gameOver }
      if head.x = g1.food.x ∧ head.y = g1.food.y then eatFood fuel g1 rng
      else some (g1, rng)
    | _, _, _ => none

/-- The keys and the frame time read during one iteration of the main loop. -/
structure FrameInput where
  up : Bool
  down : Bool
  left : Bool
  right : Bool
  space : Bool
  frameTime : ℚ

/-- Source: the four `if (IsKeyPressed(..)) snake.queueDirection(..)` lines. -/
def processInput (inp : FrameInput) (s : Snake) : Snake :=
  let s1 := if inp.up then queueDirection Direction.UP s else s
  let s2 := if inp.down then queueDirection Direction.DOWN s1 else s1
  let s3 := if inp.left then queueDirection Direction.LEFT s2 else s2
  if inp.right then queueDirection Direction.RIGHT s3 else s3

/-- Source: the update part of one iteration of `while (!WindowShouldClose())`
(drawing omitted). -/
def frame (fuel : Nat) (inp : FrameInput) (g : Session) (rng : Rand) : Option (Session × Rand) :=
  if !g.gameOver then
    let g1 : Session :=
      { g with snake := processInput inp g.snake, moveTimer := g.moveTimer + inp.frameTime }
    if g1.moveTimer ≥ moveInterval then step fuel g1 rng
    else some (g1, rng)
  else
    if inp.space then some (reset g rng) else some (g, rng)

/-! ## Specification vocabulary -/

/-- The direction that reverses `d`. -/
def opposite : Direction → Direction
  | Direction.UP => Direction.DOWN
  | Direction.DOWN => Direction.UP
  | Direction.LEFT => Direction.RIGHT
  | Direction.RIGHT => Direction.LEFT

/-- The direction a request is compared with: the last queued entry if the buffer
is non-empty, otherwise the live direction. -/
def referenceDirection (s : Snake) : Direction :=
  (s.inputQueue.getLast?).getD s.dir

/-- The stream whose first draws are the entries of `draws`, followed by zeros. -/
def streamOf (draws : List Nat) : Rand :=
  fun n => draws.getD n 0

/-- The cell returned by call number `k` (counting from 0) of `generateFood` on
the stream `rng`. -/
def candidate (rng : Rand) (k : Nat) : Segment :=
  (generateFood (fun n => rng (n + 2 * k))).1

/-- A running session whose head is at (15,8), moving RIGHT towards the border. -/
def borderScenario : Session :=
  { snake := ⟨[⟨15, 8⟩, ⟨14, 8⟩, ⟨13, 8⟩], Direction.RIGHT, []⟩, food := ⟨3, 3⟩, score := 0,
    gameOver := false, moveTimer := 0 }

/-- A running session with the canonical body and the food right in front of the
head, at (9,8). -/
def foodScenario : Session :=
  { snake := Snake.new, food := ⟨9, 8⟩, score := 0, gameOver := false, moveTimer := 0 }

/-- The session `foodScenario` after `move`: the head is on the food cell. -/
def eatenScenario : Session :=
  { snake := ⟨[⟨9, 8⟩, ⟨8, 8⟩, ⟨7, 8⟩], Direction.RIGHT, []⟩, food := ⟨9, 8⟩, score := 0,
    gameOver := false, moveTimer := 0 }

/-- A session in game over, as left by a border collision. -/
def gameOverScenario : Session :=
  { snake := ⟨[⟨16, 8⟩, ⟨15, 8⟩, ⟨14, 8⟩], Direction.RIGHT, []⟩, food := ⟨3, 3⟩, score := 0,
    gameOver := true, moveTimer := 0 }

/-- The unit offset `(dx, dy)` of a direction: UP is y-1, DOWN is y+1, LEFT is
x-1, RIGHT is x+1. -/
def unitOffset : Direction → Int × Int
  | Direction.UP => (0, -1)
  | Direction.DOWN => (0, 1)
  | Direction.LEFT => (-1, 0)
  | Direction.RIGHT => (1, 0)

/-- Starting from direction `d`, no entry of the list reverses its predecessor. -/
def noReverse : Direction → List Direction → Prop
  | _, [] => True
  | d, a :: rest => a ≠ opposite d ∧ noReverse a rest

/-- A call made on a snake by its client: a direction request or a move. -/
inductive SnakeOp where
  | queue (d : Direction)
  | move
  deriving DecidableEq

/-- Performs one client call. -/
def applyOp : SnakeOp → Snake → Option Snake
  | SnakeOp.queue d, s => some (queueDirection d s)
  | SnakeOp.move, s => move s

/-- Performs a sequence of client calls in order, starting from `s`. -/
def runOps : List SnakeOp → Snake → Option Snake
  | [], s => some s
  | op :: ops, s =>
    match applyOp op s with
    | none => none
    | some s1 => runOps ops s1

/-- The buffer invariant carried through requests and moves, together with a
non-empty body (so that `move` is defined). -/
def bufferInv (s : Snake) : Prop :=
  s.segments ≠ [] ∧ s.inputQueue.length ≤ 2 ∧ noReverse s.dir s.inputQueue

/-! ## Frames and reachable sessions -/

/-- Runs the frames of the main loop in order from a session and a stream; each
frame comes with the fuel of its regeneration loop. -/
def runFrames : List (Nat × FrameInput) → Session × Rand → Option (Session × Rand)
  | [], st => some st
  | (fuel, inp) :: rest, st =>
    match frame fuel inp st.1 st.2 with
    | none => none
    | some st1 => runFrames rest st1

/-- A frame with no key pressed and frame time `dt`. -/
def idleInput (dt : ℚ) : FrameInput :=
  { up := false, down := false, left := false, right := false, space := false, frameTime := dt }

/-- A frame with the space key (the reset command) pressed together with two
direction keys. -/
def resetInput : FrameInput :=
  { up := true, down := false, left := true, right := false, space := true, frameTime := 1 / 4 }

/-- A frame with all four direction keys pressed, no space key. -/
def directionsInput : FrameInput :=
  { up := true, down := true, left := true, right := true, space := false, frameTime := 1 / 4 }

/-- A session in game over with a grown body, a turned direction, a pending buffer
entry, a score and a timer value. -/
def lateGameOverScenario : Session :=
  { snake := ⟨[⟨5, -1⟩, ⟨5, 0⟩, ⟨5, 1⟩, ⟨4, 1⟩, ⟨3, 1⟩], Direction.UP, [Direction.LEFT]⟩,
    food := ⟨12, 2⟩, score := 2, gameOver := true, moveTimer := 1 / 20 }

/-- A running session (not reachable in play) whose next move, LEFT from (5,5),
puts the head on (4,5), a cell that holds both a body cell and the food. -/
def collideOnFoodScenario : Session :=
  { snake := ⟨[⟨5, 5⟩, ⟨5, 6⟩, ⟨4, 6⟩, ⟨4, 5⟩, ⟨3, 5⟩], Direction.UP, [Direction.LEFT]⟩,
    food := ⟨4, 5⟩, score := 2, gameOver := false, moveTimer := 0 }

/-- The number of discrete steps of one frame as the specification states it: one
for each whole tick interval contained in the timer after the elapsed time has
been added. -/
def tickCountSpec (timer elapsed : ℚ) : Int :=
  ⌊(timer + elapsed) / moveInterval⌋

/-- The timer after one frame as the specification states it: the remainder left
after subtracting the interval once per step. -/
def timerAfterSpec (timer elapsed : ℚ) : ℚ :=
  timer + elapsed - (tickCountSpec timer elapsed : ℚ) * moveInterval

/-- The session as the frame leaves it just before the timer test: inputs
processed and the frame time added to the timer. -/
def afterInput (inp : FrameInput) (g : Session) : Session :=
  { g with snake := processInput inp g.snake, moveTimer := g.moveTimer + inp.frameTime }

/-- Cell number `i` of a path that sweeps the grid row by row, left to right on
even rows and right to left on odd rows. -/
def fullBoardCell (i : Nat) : Segment :=
  { x := ((if (i / 16) % 2 = 0 then i % 16 else 15 - i % 16 : Nat) : Int), y := ((i / 16 : Nat) : Int) }

/-- A body of 256 cells that covers the whole 16 x 16 grid, head at (0,0). -/
def fullBoard : List Segment :=
  (List.range 256).map fullBoardCell

/-- A session whose body covers the whole grid and whose head has just moved LEFT
onto the food cell (0,0). -/
def fullBoardSession : Session :=
  { snake := ⟨fullBoard, Direction.LEFT, []⟩, food := ⟨0, 0⟩, score := 253, gameOver := false,
    moveTimer := 0 }

/-- The cell lies inside the grid `[0,16) x [0,16)`. -/
def inGrid (c : Segment) : Prop :=
  0 ≤ c.x ∧ c.x < 16 ∧ 0 ≤ c.y ∧ c.y < 16

/-- Two cells are grid-adjacent: they differ by exactly one unit in exactly one
coordinate. -/
def adjacent (a b : Segment) : Prop :=
  (a.x = b.x ∧ (a.y = b.y + 1 ∨ b.y = a.y + 1)) ∨
  (a.y = b.y ∧ (a.x = b.x + 1 ∨ b.x = a.x + 1))

/-- The shape of a body in play: a chain of grid-adjacent cells, possibly followed
by one copy of its last cell (the tail duplicated by `grow`). -/
def bodyShape (segs : List Segment) : Prop :=
  segs.Chain' adjacent ∨
    ∃ B t, B.Chain' adjacent ∧ B.getLast? = some t ∧ segs = B ++ [t]

/-- The facts that hold of every session reached in play. -/
structure SessionInv (g : Session) : Prop where
  buffer : bufferInv g.snake
  length_score : (g.snake.segments.length : Int) = g.score + 3
  score_nonneg : 0 ≤ g.score
  neck : ∃ h n rest, g.snake.segments = h :: n :: rest ∧ h = offsetHead g.snake.dir n
  food_inGrid : inGrid g.food
  food_off : foodOnSnake g.food g.snake.segments = false ∨ g.snake.segments.length = 3
  shape : bodyShape g.snake.segments
  running : g.gameOver = false →
    (∀ c ∈ g.snake.segments, inGrid c) ∧
    ∀ h rest, g.snake.segments = h :: rest → selfCollisionLoop h rest = false

/-- The frames of the eating scenario: one idle frame of 0.3 time units. -/
def eatingFrames : List (Nat × FrameInput) :=
  [(2, idleInput (3 / 10))]

/-- The session reached from a start with food at (9,8) by `eatingFrames`: the
head moved onto the food, the body was grown and the food redrawn at (3,3). -/
def afterEatingSession : Session :=
  { snake := ⟨[⟨9, 8⟩, ⟨8, 8⟩, ⟨7, 8⟩, ⟨7, 8⟩], Direction.RIGHT, []⟩, food := ⟨3, 3⟩, score := 1,
    gameOver := false, moveTimer := 0 }

/-- The draws of the eating scenario: the start food is (9,8), the next drawn cell
is (3,3). -/
def eatingStream : Rand :=
  streamOf [9, 8, 3, 3]

/-- The stream left after the eating scenario: two calls of `generateFood` made. -/
def afterEatingStream : Rand :=
  (generateFood (generateFood eatingStream).2).2

/-- The discrete step as the specification words it (section 4.4): after the
move, a self or border collision ends the step in game over; the food check is
made only otherwise ("Else if head cell equals Food cell"). -/
def stepElseSpec (fuel : Nat) (g : Session) (rng : Rand) : Option (Session × Rand) :=
  match move g.snake with
  | none => none
  | some moved =>
    match checkSelfCollision moved, checkBorderCollision moved, getHead moved with
    | some selfHit, some borderHit, some head =>
      let g1 : Session := { g with snake := moved, moveTimer := 0 }
      if selfHit || borderHit then some ({ g1 with gameOver := true }, rng)
      else if head.x = g1.food.x ∧ head.y = g1.food.y then eatFood fuel g1 rng
      else some (g1, rng)
    | _, _, _ => none

/-- A running session one move away from filling the grid: 256 body cells (the
sweep of `fullBoard` without its first cell (0,0), the tail cell (0,15) held
twice), head at (1,0) moving LEFT, score 253, and the food on the one free cell
(0,0).  It is the session of a game that went from the start to (0,15) and then
swept the grid row by row, eating at every step. -/
def almostFullSession : Session :=
  { snake := ⟨fullBoard.tail ++ [⟨0, 15⟩], Direction.LEFT, []⟩, food := ⟨0, 0⟩, score := 253,
    gameOver := false, moveTimer := 0 }

/-- The session `k` steps after a start with food at (3,3) and no key pressed: the
canonical body shifted `k` cells to the right. -/
def movingRight (k : Nat) : Session :=
  { snake := ⟨[⟨8 + (k : Int), 8⟩, ⟨7 + (k : Int), 8⟩, ⟨6 + (k : Int), 8⟩], Direction.RIGHT, []⟩,
    food := ⟨3, 3⟩, score := 0, gameOver := false, moveTimer := 0 }

/-- Seven idle frames of 0.3 time units each. -/
def borderFrames : List (Nat × FrameInput) :=
  List.replicate 7 (1, idleInput (3 / 10))

/-! # Theorems -/

/-! ## Shared lemmas -/

theorem queueDirection_eq (d : Direction) (s : Snake) :
    queueDirection d s =
      if d ≠ opposite (referenceDirection s) ∧ s.inputQueue.length < 2
        then { s with inputQueue := s.inputQueue ++ [d] } else s := by
  unfold queueDirection referenceDirection
  cases hq : s.inputQueue.getLast? with
  | none =>
    cases d <;> cases hd : s.dir <;> by_cases hl : s.inputQueue.length < 2 <;>
      simp [opposite, hl, hd]
  | some b =>
    cases d <;> cases b <;> by_cases hl : s.inputQueue.length < 2 <;>
      simp [opposite, hl]

theorem noReverse_adjacent (d : Direction) (q : List Direction) (hq : noReverse d q)
    (i : Nat) (a b : Direction) (ha : q[i]? = some a) (hb : q[i + 1]? = some b) :
    b ≠ opposite a := by
  induction q generalizing d i with
  | nil => simp at ha
  | cons c rest ih =>
    obtain ⟨-, hrest⟩ := hq
    cases i with
    | zero =>
      simp at ha
      subst ha
      cases rest with
      | nil => simp at hb
      | cons e rest2 =>
        simp at hb
        subst hb
        exact hrest.1
    | succ k =>
      simp at ha hb
      exact ih c hrest k ha hb

/-! ## C1 -/

/-- C1: `queueDirection d` appends `d` to the back of the buffer exactly when `d`
is not the opposite of the reference direction and the buffer holds fewer than 2
entries; otherwise the buffer is unchanged.  Body and live direction are
unchanged in both cases. -/
theorem queueDirection_spec (d : Direction) (s : Snake) :
    (queueDirection d s).inputQueue =
        (if d ≠ opposite (referenceDirection s) ∧ s.inputQueue.length < 2
          then s.inputQueue ++ [d] else s.inputQueue) ∧
      (queueDirection d s).segments = s.segments ∧
      (queueDirection d s).dir = s.dir := by
  rw [queueDirection_eq]
  split <;> simp

/-- The scenario of C1: live direction RIGHT, empty buffer, request LEFT. -/
theorem queueDirection_left_dropped (segs : List Segment) :
    (queueDirection Direction.LEFT ⟨segs, Direction.RIGHT, []⟩).inputQueue = [] := by
  simp [queueDirection]

/-! ## C2 -/

theorem bufferInv_new : bufferInv Snake.new := by
  simp [bufferInv, Snake.new, noReverse]

theorem noReverse_append (d : Direction) (q : List Direction) (a : Direction)
    (hq : noReverse d q) (ha : a ≠ opposite ((q.getLast?).getD d)) :
    noReverse d (q ++ [a]) := by
  induction q generalizing d with
  | nil => simpa [noReverse] using ha
  | cons b rest ih =>
    obtain ⟨hb, hrest⟩ := hq
    refine ⟨hb, ih b hrest ?_⟩
    cases rest with
    | nil => simpa using ha
    | cons c rest2 => simpa [List.getLast?_cons_cons] using ha

theorem bufferInv_queueDirection (d : Direction) (s : Snake) (h : bufferInv s) :
    bufferInv (queueDirection d s) := by
  obtain ⟨hseg, hlen, hrev⟩ := h
  rw [queueDirection_eq]
  split
  · rename_i hc
    refine ⟨hseg, ?_, noReverse_append s.dir s.inputQueue d hrev hc.1⟩
    have := hc.2
    simp
    omega
  · exact ⟨hseg, hlen, hrev⟩

theorem bufferInv_move (s : Snake) (h : bufferInv s) :
    ∃ s', move s = some s' ∧ bufferInv s' := by
  obtain ⟨hseg, hlen, hrev⟩ := h
  obtain ⟨segs, dir, q⟩ := s
  cases segs with
  | nil => exact absurd rfl hseg
  | cons head rest =>
    cases q with
    | nil =>
      refine ⟨_, rfl, ?_, ?_, ?_⟩
      · intro hc
        have := congrArg List.length hc
        simp at this
      · simp
      · simp [noReverse]
    | cons a q2 =>
      refine ⟨_, rfl, ?_, ?_, ?_⟩
      · intro hc
        have := congrArg List.length hc
        simp at this
      · simp at hlen ⊢; omega
      · exact hrev.2

theorem bufferInv_runOps (ops : List SnakeOp) (s : Snake) (h : bufferInv s) :
    ∃ s', runOps ops s = some s' ∧ bufferInv s' := by
  induction ops generalizing s with
  | nil => exact ⟨s, rfl, h⟩
  | cons op ops ih =>
    cases op with
    | queue d =>
      obtain ⟨s', hs', hinv⟩ := ih (queueDirection d s) (bufferInv_queueDirection d s h)
      exact ⟨s', by simpa [runOps, applyOp] using hs', hinv⟩
    | move =>
      obtain ⟨m, hm, hminv⟩ := bufferInv_move s h
      obtain ⟨s', hs', hinv⟩ := ih m hminv
      exact ⟨s', by simpa [runOps, applyOp, hm] using hs', hinv⟩

/-- C2: every sequence of `queueDirection` requests and `move` calls on a freshly
constructed snake runs to a state whose buffer holds at most 2 entries, in which
no buffered entry is the opposite of the entry before it, and whose oldest entry
is not the opposite of the live direction. -/
theorem buffer_invariant_reachable (ops : List SnakeOp) :
    ∃ s, runOps ops Snake.new = some s ∧
      s.inputQueue.length ≤ 2 ∧
      (∀ i a b, s.inputQueue[i]? = some a → s.inputQueue[i + 1]? = some b → b ≠ opposite a) ∧
      (∀ a, s.inputQueue.head? = some a → a ≠ opposite s.dir) := by
  obtain ⟨s, hs, -, hlen, hrev⟩ := bufferInv_runOps ops Snake.new bufferInv_new
  refine ⟨s, hs, hlen, ?_, ?_⟩
  · intro i a b ha hb
    exact noReverse_adjacent s.dir s.inputQueue hrev i a b ha hb
  · intro a ha
    cases hq : s.inputQueue with
    | nil => simp [hq] at ha
    | cons c rest =>
      rw [hq] at ha hrev
      simp at ha
      subst ha
      exact hrev.1

/-! ## C3 -/

theorem move_eq (head : Segment) (rest : List Segment) (dir : Direction)
    (q : List Direction) :
    move ⟨head :: rest, dir, q⟩ =
      some ⟨offsetHead (q.head?.getD dir) head :: (head :: rest).dropLast,
        q.head?.getD dir, q.tail⟩ := by
  cases q <;> simp [move, List.dropLast]

theorem offsetHead_eq (d : Direction) (head : Segment) :
    offsetHead d head = ⟨head.x + (unitOffset d).1, head.y + (unitOffset d).2⟩ := by
  cases d <;> simp [offsetHead, unitOffset] <;> rfl

/-- C3: on a non-empty body `move` applies the oldest buffered direction (removed
from the buffer and made the live direction) or, with an empty buffer, the
unchanged live direction; the new head is the prior head offset by one unit in
the applied direction, every cell `i` with `1 ≤ i < length` is the prior cell
`i - 1`, and the prior tail is dropped. -/
theorem move_spec (s : Snake) (h : s.segments ≠ []) :
    ∃ head s', s.segments.head? = some head ∧ move s = some s' ∧
      s'.dir = s.inputQueue.head?.getD s.dir ∧
      s'.inputQueue = s.inputQueue.tail ∧
      s'.segments.head? =
        some ⟨head.x + (unitOffset s'.dir).1, head.y + (unitOffset s'.dir).2⟩ ∧
      s'.segments.length = s.segments.length ∧
      (∀ i, 1 ≤ i → i < s.segments.length → s'.segments[i]? = s.segments[i - 1]?) := by
  obtain ⟨segs, dir, q⟩ := s
  cases segs with
  | nil => exact absurd rfl h
  | cons head rest =>
    refine ⟨head, _, rfl, move_eq head rest dir q, rfl, rfl, ?_, ?_, ?_⟩
    · simp [offsetHead_eq]
    · simp
    · intro i h1 h2
      obtain ⟨k, rfl⟩ : ∃ k, i = k + 1 := ⟨i - 1, by omega⟩
      simp at h2
      simp only [List.getElem?_cons_succ, Nat.add_sub_cancel]
      rw [List.getElem?_eq_getElem (by simp; omega), List.getElem?_eq_getElem (by simp; omega)]
      simp [List.getElem_dropLast]

/-- The scenario of C3: the canonical body moving RIGHT with an empty buffer. -/
theorem move_spec_witness :
    Snake.new.segments ≠ [] ∧
    ∃ head s', Snake.new.segments.head? = some head ∧ move Snake.new = some s' ∧
      s'.dir = Snake.new.inputQueue.head?.getD Snake.new.dir ∧
      s'.inputQueue = Snake.new.inputQueue.tail ∧
      s'.segments.head? =
        some ⟨head.x + (unitOffset s'.dir).1, head.y + (unitOffset s'.dir).2⟩ ∧
      s'.segments.length = Snake.new.segments.length ∧
      (∀ i, 1 ≤ i → i < Snake.new.segments.length →
        s'.segments[i]? = Snake.new.segments[i - 1]?) :=
  ⟨by decide, move_spec Snake.new (by decide)⟩

/-- The scenario of C3, evaluated: `[(8,8),(7,8),(6,8)]` becomes
`[(9,8),(8,8),(7,8)]`. -/
theorem move_new_eval :
    move Snake.new = some ⟨[⟨9, 8⟩, ⟨8, 8⟩, ⟨7, 8⟩], Direction.RIGHT, []⟩ := by
  decide

/-! ## C4 -/

theorem grow_eq (s : Snake) (h : s.segments ≠ []) :
    grow s = some { s with segments := s.segments ++ [s.segments.getLast h] } := by
  simp [grow, List.getLast?_eq_getLast _ h]

theorem move_length (s m : Snake) (h : move s = some m) :
    m.segments.length = s.segments.length := by
  obtain ⟨segs, dir, q⟩ := s
  cases segs with
  | nil => cases q <;> simp [move] at h
  | cons head rest =>
    rw [move_eq] at h
    cases h
    simp

/-- C4: on a non-empty body `move` keeps the body length, and `grow` followed by
one `move` gives a body exactly one cell longer than before the `grow`. -/
theorem move_grow_length (s : Snake) (h : s.segments ≠ []) :
    (∃ m, move s = some m ∧ m.segments.length = s.segments.length) ∧
    (∃ g m, grow s = some g ∧ move g = some m ∧
      m.segments.length = s.segments.length + 1) := by
  obtain ⟨segs, dir, q⟩ := s
  cases segs with
  | nil => exact absurd rfl h
  | cons head rest =>
    refine ⟨⟨_, move_eq head rest dir q, by simp⟩, ?_⟩
    refine ⟨_, _, grow_eq _ h, move_eq head _ dir q, ?_⟩
    simp

/-- C4 at the canonical body. -/
theorem move_grow_length_witness :
    Snake.new.segments ≠ [] ∧
    ((∃ m, move Snake.new = some m ∧ m.segments.length = Snake.new.segments.length) ∧
    (∃ g m, grow Snake.new = some g ∧ move g = some m ∧
      m.segments.length = Snake.new.segments.length + 1)) :=
  ⟨by decide, move_grow_length Snake.new (by decide)⟩

/-! ## C5 -/

theorem selfCollisionLoop_iff (head : Segment) (rest : List Segment) :
    selfCollisionLoop head rest = true ↔
      ∃ (k : Nat) (seg : Segment), rest[k]? = some seg ∧ seg.x = head.x ∧ seg.y = head.y := by
  induction rest with
  | nil => simp [selfCollisionLoop]
  | cons c rest ih =>
    unfold selfCollisionLoop
    by_cases hc : head.x = c.x ∧ head.y = c.y
    · simp only [hc, and_self, if_true, true_iff]
      exact ⟨0, c, by simp, hc.1.symm ▸ rfl, hc.2.symm ▸ rfl⟩
    · rw [if_neg hc, ih]
      constructor
      · rintro ⟨k, seg, hk, hx, hy⟩
        exact ⟨k + 1, seg, by simpa using hk, hx, hy⟩
      · rintro ⟨k, seg, hk, hx, hy⟩
        cases k with
        | zero =>
          simp at hk
          subst hk
          exact absurd ⟨hx.symm, hy.symm⟩ hc
        | succ k => exact ⟨k, seg, by simpa using hk, hx, hy⟩

/-- C5: on a non-empty body `checkSelfCollision` returns a value, and that value
is true exactly when some index `i ≥ 1` holds a cell with the same x and the same
y as the head cell. -/
theorem checkSelfCollision_spec (s : Snake) (h : s.segments ≠ []) :
    ∃ head b, s.segments.head? = some head ∧ checkSelfCollision s = some b ∧
      (b = true ↔ ∃ (i : Nat) (seg : Segment), 1 ≤ i ∧ s.segments[i]? = some seg ∧
        seg.x = head.x ∧ seg.y = head.y) := by
  obtain ⟨segs, dir, q⟩ := s
  cases segs with
  | nil => exact absurd rfl h
  | cons head rest =>
    refine ⟨head, _, rfl, rfl, ?_⟩
    rw [selfCollisionLoop_iff]
    constructor
    · rintro ⟨k, seg, hk, hx, hy⟩
      exact ⟨k + 1, seg, by omega, by simpa using hk, hx, hy⟩
    · rintro ⟨i, seg, hi, hk, hx, hy⟩
      obtain ⟨k, rfl⟩ : ∃ k, i = k + 1 := ⟨i - 1, by omega⟩
      exact ⟨k, seg, by simpa using hk, hx, hy⟩

/-- C5 at a body whose head returns onto its fourth cell. -/
theorem checkSelfCollision_spec_witness :
    (⟨[⟨5, 5⟩, ⟨5, 6⟩, ⟨4, 6⟩, ⟨4, 5⟩, ⟨5, 5⟩], Direction.RIGHT, []⟩ : Snake).segments ≠ [] ∧
    ∃ head b,
      (⟨[⟨5, 5⟩, ⟨5, 6⟩, ⟨4, 6⟩, ⟨4, 5⟩, ⟨5, 5⟩], Direction.RIGHT, []⟩ : Snake).segments.head?
        = some head ∧
      checkSelfCollision ⟨[⟨5, 5⟩, ⟨5, 6⟩, ⟨4, 6⟩, ⟨4, 5⟩, ⟨5, 5⟩], Direction.RIGHT, []⟩
        = some b ∧
      (b = true ↔ ∃ (i : Nat) (seg : Segment), 1 ≤ i ∧
        (⟨[⟨5, 5⟩, ⟨5, 6⟩, ⟨4, 6⟩, ⟨4, 5⟩, ⟨5, 5⟩], Direction.RIGHT, []⟩ : Snake).segments[i]?
          = some seg ∧
        seg.x = head.x ∧ seg.y = head.y) :=
  ⟨by decide, checkSelfCollision_spec _ (by decide)⟩

/-! ## C6 -/

/-- C6: on a non-empty body `checkBorderCollision` returns a value, and that value
is true exactly when `head.x < 0` or `head.x ≥ 16` or `head.y < 0` or
`head.y ≥ 16`, that is when the head lies outside `[0,16) x [0,16)`. -/
theorem checkBorderCollision_spec (s : Snake) (h : s.segments ≠ []) :
    ∃ head b, s.segments.head? = some head ∧ checkBorderCollision s = some b ∧
      (b = true ↔ head.x < 0 ∨ head.x ≥ 16 ∨ head.y < 0 ∨ head.y ≥ 16) ∧
      (b = true ↔ ¬ (0 ≤ head.x ∧ head.x < 16 ∧ 0 ≤ head.y ∧ head.y < 16)) := by
  obtain ⟨segs, dir, q⟩ := s
  cases segs with
  | nil => exact absurd rfl h
  | cons head rest =>
    refine ⟨head, _, rfl, rfl, ?_, ?_⟩
    · simp [GRID_WIDTH, GRID_HEIGHT]
    · simp only [GRID_WIDTH, GRID_HEIGHT, decide_eq_true_eq]
      omega

/-- The scenario of C6: a head at (16,8). -/
theorem checkBorderCollision_spec_witness :
    (⟨[⟨16, 8⟩, ⟨15, 8⟩, ⟨14, 8⟩], Direction.RIGHT, []⟩ : Snake).segments ≠ [] ∧
    ∃ head b,
      (⟨[⟨16, 8⟩, ⟨15, 8⟩, ⟨14, 8⟩], Direction.RIGHT, []⟩ : Snake).segments.head? = some head ∧
      checkBorderCollision ⟨[⟨16, 8⟩, ⟨15, 8⟩, ⟨14, 8⟩], Direction.RIGHT, []⟩ = some b ∧
      (b = true ↔ head.x < 0 ∨ head.x ≥ 16 ∨ head.y < 0 ∨ head.y ≥ 16) ∧
      (b = true ↔ ¬ (0 ≤ head.x ∧ head.x < 16 ∧ 0 ≤ head.y ∧ head.y < 16)) :=
  ⟨by decide, checkBorderCollision_spec _ (by decide)⟩

/-- The scenario of C6, evaluated: a head at (16,8) is a border collision. -/
theorem checkBorderCollision_eval :
    checkBorderCollision ⟨[⟨16, 8⟩, ⟨15, 8⟩, ⟨14, 8⟩], Direction.RIGHT, []⟩ = some true := by
  decide

/-! ## Food regeneration and the discrete step -/

theorem foodOnSnake_iff (food : Segment) (segs : List Segment) :
    foodOnSnake food segs = true ↔ ∃ seg ∈ segs, food.x = seg.x ∧ food.y = seg.y := by
  induction segs with
  | nil => simp [foodOnSnake]
  | cons c rest ih =>
    unfold foodOnSnake
    by_cases hc : food.x = c.x ∧ food.y = c.y
    · simp [hc]
    · rw [if_neg hc, ih]
      simp [hc]

theorem foodOnSnake_false_iff (food : Segment) (segs : List Segment) :
    foodOnSnake food segs = false ↔ ∀ seg ∈ segs, ¬ (food.x = seg.x ∧ food.y = seg.y) := by
  rw [← Bool.not_eq_true, foodOnSnake_iff]
  simp

theorem candidate_zero (rng : Rand) : candidate rng 0 = (generateFood rng).1 := by
  simp [candidate]

theorem candidate_succ (rng : Rand) (k : Nat) :
    candidate rng (k + 1) = candidate (generateFood rng).2 k := by
  have h : ∀ a : Nat, a + 2 * (k + 1) = a + 2 * k + 2 := by intro a; ring
  simp only [candidate, generateFood, h]

/-- The loop, when it ends, ends with a cell that is on no segment; that cell is
the initial candidate or one of the cells drawn from the stream. -/
theorem regenerateFood_sound (fuel : Nat) (segs : List Segment) (food0 : Segment)
    (rng : Rand) (food : Segment) (rng1 : Rand)
    (h : regenerateFood fuel segs food0 rng = some (food, rng1)) :
    foodOnSnake food segs = false ∧ (food = food0 ∨ ∃ k, food = candidate rng k) := by
  induction fuel generalizing food0 rng with
  | zero => simp [regenerateFood] at h
  | succ n ih =>
    unfold regenerateFood at h
    by_cases hc : foodOnSnake food0 segs = true
    · rw [if_pos hc] at h
      obtain ⟨h1, h2⟩ := ih _ _ h
      refine ⟨h1, Or.inr ?_⟩
      rcases h2 with h2 | ⟨k, hk⟩
      · exact ⟨0, by rw [h2, candidate_zero]⟩
      · exact ⟨k + 1, by rw [hk, candidate_succ]⟩
    · rw [if_neg hc] at h
      simp only [Option.some.injEq, Prod.mk.injEq] at h
      obtain ⟨rfl, -⟩ := h
      exact ⟨by simpa using hc, Or.inl rfl⟩

/-- The loop ends as soon as the stream holds a cell that is on no segment. -/
theorem regenerateFood_terminates (segs : List Segment) (rng : Rand) (k : Nat)
    (hfree : foodOnSnake (candidate rng k) segs = false) (fuel : Nat) (hfuel : k + 1 ≤ fuel) :
    (regenerateFood fuel segs (generateFood rng).1 (generateFood rng).2).isSome = true := by
  induction k generalizing rng fuel with
  | zero =>
    obtain ⟨n, rfl⟩ : ∃ n, fuel = n + 1 := ⟨fuel - 1, by omega⟩
    rw [candidate_zero] at hfree
    simp [regenerateFood, hfree]
  | succ k ih =>
    obtain ⟨n, rfl⟩ : ∃ n, fuel = n + 1 := ⟨fuel - 1, by omega⟩
    unfold regenerateFood
    split
    · rw [candidate_succ] at hfree
      exact ih _ hfree n (by omega)
    · rfl

/-- Normal form of the discrete step on a non-empty body. -/
theorem step_cases (g : Session) (rng : Rand) (hbody : g.snake.segments ≠ []) :
    ∃ moved grown selfHit borderHit head,
      move g.snake = some moved ∧ grow moved = some grown ∧
      checkSelfCollision moved = some selfHit ∧
      checkBorderCollision moved = some borderHit ∧
      getHead moved = some head ∧
      moved.segments.length = g.snake.segments.length ∧
      grown.segments.length = g.snake.segments.length + 1 ∧
      head ∈ grown.segments ∧
      ∀ fuel, step fuel g rng =
        if head.x = g.food.x ∧ head.y = g.food.y then
          (regenerateFood fuel grown.segments (generateFood rng).1 (generateFood rng).2).map
            (fun p => ({ snake := grown, food := p.1, score := g.score + 1,
                         gameOver := if selfHit || borderHit then true else g.gameOver,
                         moveTimer := 0 }, p.2))
        else
          some ({ snake := moved, food := g.food, score := g.score,
                  gameOver := if selfHit || borderHit then true else g.gameOver,
                  moveTimer := 0 }, rng) := by
  obtain ⟨⟨segs, dir, q⟩, food, score, over, timer⟩ := g
  cases segs with
  | nil => exact absurd rfl hbody
  | cons h0 rest =>
    have hg := grow_eq
      (⟨offsetHead (q.head?.getD dir) h0 :: (h0 :: rest).dropLast, q.head?.getD dir, q.tail⟩ : Snake)
      (by simp)
    refine ⟨_, _, _, _, _, move_eq h0 rest dir q, hg, rfl, rfl, rfl, ?_, ?_, ?_, ?_⟩
    · simp
    · simp
    · simp
    · intro fuel
      simp only [step, move_eq, checkSelfCollision, checkBorderCollision, getHead,
        List.head?_cons, eatFood, hg]
      split
      · cases regenerateFood fuel _ _ _ <;> rfl
      · rfl

theorem step_terminates (g : Session) (rng : Rand) (moved grown : Snake)
    (selfHit borderHit : Bool) (head : Segment)
    (hstep : ∀ fuel, step fuel g rng =
        if head.x = g.food.x ∧ head.y = g.food.y then
          (regenerateFood fuel grown.segments (generateFood rng).1 (generateFood rng).2).map
            (fun p => ({ snake := grown, food := p.1, score := g.score + 1,
                         gameOver := if selfHit || borderHit then true else g.gameOver,
                         moveTimer := 0 }, p.2))
        else
          some ({ snake := moved, food := g.food, score := g.score,
                  gameOver := if selfHit || borderHit then true else g.gameOver,
                  moveTimer := 0 }, rng))
    (k fuel : Nat) (hfree : foodOnSnake (candidate rng k) grown.segments = false)
    (hfuel : k + 1 ≤ fuel) : (step fuel g rng).isSome = true := by
  rw [hstep]
  split
  · have := regenerateFood_terminates grown.segments rng k hfree fuel hfuel
    cases hr : regenerateFood fuel grown.segments (generateFood rng).1 (generateFood rng).2 with
    | none => rw [hr] at this; simp at this
    | some p => rfl
  · rfl

/-! ## C7 -/

/-- C7: in a running session with a non-empty body, whenever the discrete step
completes, its game-over flag is true exactly when `checkSelfCollision` or
`checkBorderCollision` holds on the body right after `move`; and the step does
complete as soon as the stream holds a cell off the grown body. -/
theorem step_gameOver_spec (g : Session) (rng : Rand) (hrun : g.gameOver = false)
    (hbody : g.snake.segments ≠ []) :
    ∃ moved grown selfHit borderHit,
      move g.snake = some moved ∧ grow moved = some grown ∧
      checkSelfCollision moved = some selfHit ∧
      checkBorderCollision moved = some borderHit ∧
      (∀ fuel g' rng', step fuel g rng = some (g', rng') →
        (g'.gameOver = true ↔ (selfHit = true ∨ borderHit = true))) ∧
      (∀ k fuel, foodOnSnake (candidate rng k) grown.segments = false → k + 1 ≤ fuel →
        (step fuel g rng).isSome = true) := by
  obtain ⟨moved, grown, selfHit, borderHit, head, hm, hg, hs, hb, -, -, -, -, hstep⟩ :=
    step_cases g rng hbody
  refine ⟨moved, grown, selfHit, borderHit, hm, hg, hs, hb, ?_, ?_⟩
  · intro fuel g' rng' h
    rw [hstep, hrun] at h
    split at h
    · cases hr : regenerateFood fuel grown.segments (generateFood rng).1 (generateFood rng).2 with
      | none => rw [hr] at h; simp at h
      | some p =>
        rw [hr] at h
        simp only [Option.map_some', Option.some.injEq, Prod.mk.injEq] at h
        obtain ⟨rfl, -⟩ := h
        cases selfHit <;> cases borderHit <;> simp
    · simp only [Option.some.injEq, Prod.mk.injEq] at h
      obtain ⟨rfl, -⟩ := h
      cases selfHit <;> cases borderHit <;> simp
  · intro k fuel hfree hfuel
    exact step_terminates g rng moved grown selfHit borderHit head hstep k fuel hfree hfuel

/-- C7 at the border scenario: running, head (15,8), direction RIGHT. -/
theorem step_gameOver_spec_witness :
    borderScenario.gameOver = false ∧ borderScenario.snake.segments ≠ [] ∧
    ∃ moved grown selfHit borderHit,
      move borderScenario.snake = some moved ∧ grow moved = some grown ∧
      checkSelfCollision moved = some selfHit ∧
      checkBorderCollision moved = some borderHit ∧
      (∀ fuel g' rng', step fuel borderScenario (streamOf [5, 5]) = some (g', rng') →
        (g'.gameOver = true ↔ (selfHit = true ∨ borderHit = true))) ∧
      (∀ k fuel, foodOnSnake (candidate (streamOf [5, 5]) k) grown.segments = false →
        k + 1 ≤ fuel → (step fuel borderScenario (streamOf [5, 5])).isSome = true) :=
  ⟨rfl, by decide, step_gameOver_spec borderScenario (streamOf [5, 5]) rfl (by decide)⟩

/-- The scenarios of C7, evaluated: from head (15,8) moving RIGHT the step ends with
head (16,8) and the game over; from the canonical body moving RIGHT it ends with the
game still running. -/
theorem step_gameOver_eval :
    (step 1 borderScenario (streamOf [5, 5])).map
        (fun p => (p.1.gameOver, p.1.snake.segments)) =
      some (true, [⟨16, 8⟩, ⟨15, 8⟩, ⟨14, 8⟩]) ∧
    (step 1 (initSession (streamOf [5, 5])).1 (initSession (streamOf [5, 5])).2).map
        (fun p => (p.1.gameOver, p.1.snake.segments)) =
      some (false, [⟨9, 8⟩, ⟨8, 8⟩, ⟨7, 8⟩]) := by
  constructor <;> decide

/-! ## C8 -/

/-- C8, amended: on a non-empty body, if after `move` the head is on the food
cell, then whenever the step completes the body is exactly one cell longer than it
began, the score is increased by exactly 1 and the food is a freshly drawn cell that
lies on no body cell and differs from the old food; the step completes as soon as
the stream holds a cell off the grown body, and it completes only if the stream
holds such a cell.  If the head is not on the food cell, the step completes with
body length, score and food as before. -/
theorem step_food_spec (g : Session) (rng : Rand) (hbody : g.snake.segments ≠ []) :
    ∃ moved grown head,
      move g.snake = some moved ∧ grow moved = some grown ∧ getHead moved = some head ∧
      ((head.x = g.food.x ∧ head.y = g.food.y) →
        (∀ fuel g' rng', step fuel g rng = some (g', rng') →
          g'.snake.segments.length = g.snake.segments.length + 1 ∧
          g'.score = g.score + 1 ∧
          (∃ k, g'.food = candidate rng k) ∧
          foodOnSnake g'.food g'.snake.segments = false ∧
          g'.food ≠ g.food) ∧
        (∀ k fuel, foodOnSnake (candidate rng k) grown.segments = false → k + 1 ≤ fuel →
          (step fuel g rng).isSome = true) ∧
        ((∃ fuel, (step fuel g rng).isSome = true) →
          ∃ k, foodOnSnake (candidate rng k) grown.segments = false)) ∧
      (¬ (head.x = g.food.x ∧ head.y = g.food.y) →
        ∀ fuel, ∃ g' rng', step fuel g rng = some (g', rng') ∧
          g'.snake.segments.length = g.snake.segments.length ∧
          g'.score = g.score ∧ g'.food = g.food) := by
  obtain ⟨moved, grown, selfHit, borderHit, head, hm, hg, -, -, hh, hlm, hlg, hmem, hstep⟩ :=
    step_cases g rng hbody
  refine ⟨moved, grown, head, hm, hg, hh, ?_, ?_⟩
  · intro heat
    refine ⟨?_, ?_, ?_⟩
    · intro fuel g' rng' h
      rw [hstep, if_pos heat] at h
      cases hr : regenerateFood fuel grown.segments (generateFood rng).1 (generateFood rng).2 with
      | none => rw [hr] at h; simp at h
      | some p =>
        obtain ⟨food, rng1⟩ := p
        rw [hr] at h
        simp only [Option.map_some', Option.some.injEq, Prod.mk.injEq] at h
        obtain ⟨rfl, -⟩ := h
        obtain ⟨hoff, hcand⟩ := regenerateFood_sound _ _ _ _ _ _ hr
        refine ⟨hlg, rfl, ?_, hoff, ?_⟩
        · rcases hcand with h0 | ⟨k, hk⟩
          · exact ⟨0, by rw [candidate_zero]; exact h0⟩
          · exact ⟨k + 1, by rw [candidate_succ]; exact hk⟩
        · intro heq
          have hall := (foodOnSnake_false_iff food grown.segments).1 hoff head hmem
          apply hall
          change food = g.food at heq
          rw [heq]
          exact ⟨heat.1.symm, heat.2.symm⟩
    · intro k fuel hfree hfuel
      exact step_terminates g rng moved grown selfHit borderHit head hstep k fuel hfree hfuel
    · rintro ⟨fuel, h⟩
      rw [hstep, if_pos heat] at h
      cases hr : regenerateFood fuel grown.segments (generateFood rng).1 (generateFood rng).2 with
      | none => rw [hr] at h; simp at h
      | some p =>
        obtain ⟨food, rng1⟩ := p
        obtain ⟨hoff, hcand⟩ := regenerateFood_sound _ _ _ _ _ _ hr
        rcases hcand with h0 | ⟨k, hk⟩
        · exact ⟨0, by rw [candidate_zero, ← h0]; exact hoff⟩
        · exact ⟨k + 1, by rw [candidate_succ, ← hk]; exact hoff⟩
  · intro hne fuel
    rw [hstep, if_neg hne]
    exact ⟨_, _, rfl, hlm, rfl, rfl⟩

/-- C8, amended, at the food scenario: canonical body, food at (9,8), first draws
(9,8) (on the snake) and then (3,3). -/
theorem step_food_spec_witness :
    foodScenario.snake.segments ≠ [] ∧
    ∃ moved grown head,
      move foodScenario.snake = some moved ∧ grow moved = some grown ∧
      getHead moved = some head ∧
      ((head.x = foodScenario.food.x ∧ head.y = foodScenario.food.y) →
        (∀ fuel g' rng', step fuel foodScenario (streamOf [9, 8, 3, 3]) = some (g', rng') →
          g'.snake.segments.length = foodScenario.snake.segments.length + 1 ∧
          g'.score = foodScenario.score + 1 ∧
          (∃ k, g'.food = candidate (streamOf [9, 8, 3, 3]) k) ∧
          foodOnSnake g'.food g'.snake.segments = false ∧
          g'.food ≠ foodScenario.food) ∧
        (∀ k fuel, foodOnSnake (candidate (streamOf [9, 8, 3, 3]) k) grown.segments = false →
          k + 1 ≤ fuel → (step fuel foodScenario (streamOf [9, 8, 3, 3])).isSome = true) ∧
        ((∃ fuel, (step fuel foodScenario (streamOf [9, 8, 3, 3])).isSome = true) →
          ∃ k, foodOnSnake (candidate (streamOf [9, 8, 3, 3]) k) grown.segments = false)) ∧
      (¬ (head.x = foodScenario.food.x ∧ head.y = foodScenario.food.y) →
        ∀ fuel, ∃ g' rng', step fuel foodScenario (streamOf [9, 8, 3, 3]) = some (g', rng') ∧
          g'.snake.segments.length = foodScenario.snake.segments.length ∧
          g'.score = foodScenario.score ∧ g'.food = foodScenario.food) :=
  ⟨by decide, step_food_spec foodScenario (streamOf [9, 8, 3, 3]) (by decide)⟩

/-- The scenario of C8, evaluated: the head advances onto the food at (9,8); the body
grows from 3 to 4 cells, the score becomes 1 and the new food is (3,3), the first
drawn cell that is off the snake. -/
theorem step_food_eval :
    (step 2 foodScenario (streamOf [9, 8, 3, 3])).map
        (fun p => (p.1.snake.segments, p.1.score, p.1.food, p.1.gameOver)) =
      some ([⟨9, 8⟩, ⟨8, 8⟩, ⟨7, 8⟩, ⟨7, 8⟩], 1, ⟨3, 3⟩, false) := by
  decide

/-! ## C9 -/

/-- C9: whenever the food regeneration run after a food-consuming step ends, the
body it leaves is the prior body with its tail duplicated, and the committed food
cell has the x and y of no cell of that grown body. -/
theorem eatFood_food_off_body (fuel : Nat) (g : Session) (rng : Rand) (g' : Session)
    (rng' : Rand) (h : eatFood fuel g rng = some (g', rng')) :
    (∃ tail, g.snake.segments.getLast? = some tail ∧
      g'.snake.segments = g.snake.segments ++ [tail]) ∧
    ∀ seg ∈ g'.snake.segments, ¬ (g'.food.x = seg.x ∧ g'.food.y = seg.y) := by
  unfold eatFood at h
  cases hg : grow g.snake with
  | none => rw [hg] at h; simp at h
  | some grown =>
    rw [hg] at h
    dsimp only at h
    cases hr : regenerateFood fuel grown.segments (generateFood rng).1 (generateFood rng).2 with
    | none => rw [hr] at h; simp at h
    | some p =>
      obtain ⟨food, rng1⟩ := p
      rw [hr] at h
      simp only [Option.some.injEq, Prod.mk.injEq] at h
      obtain ⟨rfl, -⟩ := h
      obtain ⟨hoff, -⟩ := regenerateFood_sound _ _ _ _ _ _ hr
      refine ⟨?_, (foodOnSnake_false_iff food grown.segments).1 hoff⟩
      unfold grow at hg
      cases hl : g.snake.segments.getLast? with
      | none => rw [hl] at hg; simp at hg
      | some tail =>
        rw [hl] at hg
        simp only [Option.some.injEq] at hg
        subst hg
        exact ⟨tail, rfl, rfl⟩

/-- C9 after the head reached the food at (9,8), with draws (9,8) and then (3,3). -/
theorem eatFood_food_off_body_witness :
    eatFood 2 eatenScenario (streamOf [9, 8, 3, 3]) =
        some ({ eatenScenario with
                snake := ⟨[⟨9, 8⟩, ⟨8, 8⟩, ⟨7, 8⟩, ⟨7, 8⟩], Direction.RIGHT, []⟩,
                score := 1, food := ⟨3, 3⟩ },
              (generateFood (generateFood (streamOf [9, 8, 3, 3])).2).2) ∧
    ((∃ tail, eatenScenario.snake.segments.getLast? = some tail ∧
      ([⟨9, 8⟩, ⟨8, 8⟩, ⟨7, 8⟩, ⟨7, 8⟩] : List Segment) =
        eatenScenario.snake.segments ++ [tail]) ∧
    ∀ seg ∈ ([⟨9, 8⟩, ⟨8, 8⟩, ⟨7, 8⟩, ⟨7, 8⟩] : List Segment),
      ¬ ((3 : Int) = seg.x ∧ (3 : Int) = seg.y)) :=
  ⟨rfl, eatFood_food_off_body 2 eatenScenario (streamOf [9, 8, 3, 3]) _ _ rfl⟩

/-! ## C10 -/

/-- C10: with draws 7 and 8 the food committed at session start, and likewise the
food committed by a reset, is the cell (7,8), which is the second cell of the
canonical body `[(8,8),(7,8),(6,8)]`. -/
theorem initial_food_on_snake :
    (initSession (streamOf [7, 8])).1.food = ⟨7, 8⟩ ∧
    (initSession (streamOf [7, 8])).1.snake.segments = [⟨8, 8⟩, ⟨7, 8⟩, ⟨6, 8⟩] ∧
    foodOnSnake (initSession (streamOf [7, 8])).1.food
      (initSession (streamOf [7, 8])).1.snake.segments = true ∧
    (reset gameOverScenario (streamOf [7, 8])).1.food = ⟨7, 8⟩ ∧
    (reset gameOverScenario (streamOf [7, 8])).1.snake.segments = [⟨8, 8⟩, ⟨7, 8⟩, ⟨6, 8⟩] ∧
    foodOnSnake (reset gameOverScenario (streamOf [7, 8])).1.food
      (reset gameOverScenario (streamOf [7, 8])).1.snake.segments = true := by
  decide

/-! ## C11 -/

/-- C11: in game over, a frame with the reset command yields the body
`[(8,8),(7,8),(6,8)]`, live direction RIGHT, an empty buffer, score 0, move timer 0
and the game-over flag false, whatever the session held before. -/
theorem frame_reset_spec (fuel : Nat) (inp : FrameInput) (g : Session) (rng : Rand)
    (hover : g.gameOver = true) (hspace : inp.space = true) :
    ∃ g' rng', frame fuel inp g rng = some (g', rng') ∧
      g'.snake.segments = [⟨8, 8⟩, ⟨7, 8⟩, ⟨6, 8⟩] ∧
      g'.snake.dir = Direction.RIGHT ∧
      g'.snake.inputQueue = [] ∧
      g'.score = 0 ∧ g'.moveTimer = 0 ∧ g'.gameOver = false := by
  refine ⟨(reset g rng).1, (reset g rng).2, ?_, rfl, rfl, rfl, rfl, rfl, rfl⟩
  simp [frame, hover, hspace]

/-- C11 at a late game-over session (5 cells, direction UP, one buffered entry,
score 2, timer 1/20). -/
theorem frame_reset_spec_witness :
    lateGameOverScenario.gameOver = true ∧ resetInput.space = true ∧
    ∃ g' rng', frame 1 resetInput lateGameOverScenario (streamOf [3, 3]) = some (g', rng') ∧
      g'.snake.segments = [⟨8, 8⟩, ⟨7, 8⟩, ⟨6, 8⟩] ∧
      g'.snake.dir = Direction.RIGHT ∧
      g'.snake.inputQueue = [] ∧
      g'.score = 0 ∧ g'.moveTimer = 0 ∧ g'.gameOver = false :=
  ⟨rfl, rfl, frame_reset_spec 1 resetInput lateGameOverScenario (streamOf [3, 3]) rfl rfl⟩

theorem frame_gameOver_same (fuel : Nat) (inp : FrameInput) (g : Session) (rng : Rand)
    (hover : g.gameOver = true) (hspace : inp.space = false) :
    frame fuel inp g rng = some (g, rng) := by
  simp [frame, hover, hspace]

/-! ## C12 -/

/-- C12: in game over, a frame without the reset command leaves the whole session
(body, live direction, buffer, food, score, move timer, game-over flag) and the
random stream unchanged, whatever direction keys are pressed and whatever time
elapsed. -/
theorem frame_gameOver_unchanged (fuel : Nat) (inp : FrameInput) (g : Session) (rng : Rand)
    (hover : g.gameOver = true) (hspace : inp.space = false) :
    frame fuel inp g rng = some (g, rng) := by
  simp [frame, hover, hspace]

/-- C12 at a late game-over session with all four direction keys pressed. -/
theorem frame_gameOver_unchanged_witness :
    lateGameOverScenario.gameOver = true ∧ directionsInput.space = false ∧
    frame 1 directionsInput lateGameOverScenario (streamOf [3, 3]) =
      some (lateGameOverScenario, streamOf [3, 3]) :=
  ⟨rfl, rfl, frame_gameOver_unchanged 1 directionsInput lateGameOverScenario (streamOf [3, 3])
    rfl rfl⟩

/-! ## The food check on a colliding step -/

/-- The food check is not in an else-branch of the collision check: in
`collideOnFoodScenario`, a session play never reaches, the move puts the head on a
body cell and on the food cell, and the step both ends the game and grows the body
from 5 to 6 cells, raises the score from 2 to 3 and redraws the food. -/
theorem step_collision_still_eats :
    collideOnFoodScenario.gameOver = false ∧
    collideOnFoodScenario.score = 2 ∧
    collideOnFoodScenario.food = ⟨4, 5⟩ ∧
    collideOnFoodScenario.snake.segments.length = 5 ∧
    (move collideOnFoodScenario.snake).bind checkSelfCollision = some true ∧
    (step 1 collideOnFoodScenario (streamOf [9, 9])).map
        (fun p => (p.1.gameOver, p.1.score, p.1.snake.segments.length, p.1.food)) =
      some (true, 3, 6, ⟨9, 9⟩) := by
  decide

/-- On a non-empty body, when a self or border collision is detected after `move`
and the moved head is not on the food cell, the step ends at once in game over with
the moved body (not grown), the score and the food it had before the step, and
without drawing from the random stream. -/
theorem step_collision_no_food (g : Session) (rng : Rand) (hbody : g.snake.segments ≠ []) :
    ∃ moved selfHit borderHit head,
      move g.snake = some moved ∧
      checkSelfCollision moved = some selfHit ∧
      checkBorderCollision moved = some borderHit ∧
      getHead moved = some head ∧
      ((selfHit = true ∨ borderHit = true) → ¬ (head.x = g.food.x ∧ head.y = g.food.y) →
        ∀ fuel, step fuel g rng =
          some ({ snake := moved, food := g.food, score := g.score, gameOver := true,
                  moveTimer := 0 }, rng)) := by
  obtain ⟨moved, grown, selfHit, borderHit, head, hm, -, hs, hb, hh, -, -, -, hstep⟩ :=
    step_cases g rng hbody
  refine ⟨moved, selfHit, borderHit, head, hm, hs, hb, hh, ?_⟩
  intro hcoll hne fuel
  rw [hstep, if_neg hne]
  have : (selfHit || borderHit) = true := by
    rcases hcoll with h | h <;> simp [h]
  simp [this]

/-! ## C14 -/

theorem queueDirection_segments (d : Direction) (s : Snake) :
    (queueDirection d s).segments = s.segments := by
  rw [queueDirection_eq]
  split <;> rfl

theorem queueDirection_dir (d : Direction) (s : Snake) :
    (queueDirection d s).dir = s.dir := by
  rw [queueDirection_eq]
  split <;> rfl

theorem processInput_segments (inp : FrameInput) (s : Snake) :
    (processInput inp s).segments = s.segments := by
  unfold processInput
  cases inp.up <;> cases inp.down <;> cases inp.left <;> cases inp.right <;>
    simp [queueDirection_segments]

theorem processInput_dir (inp : FrameInput) (s : Snake) :
    (processInput inp s).dir = s.dir := by
  unfold processInput
  cases inp.up <;> cases inp.down <;> cases inp.left <;> cases inp.right <;>
    simp [queueDirection_dir]

theorem bufferInv_processInput (inp : FrameInput) (s : Snake) (h : bufferInv s) :
    bufferInv (processInput inp s) := by
  unfold processInput
  cases inp.up <;> cases inp.down <;> cases inp.left <;> cases inp.right <;>
    simp only [Bool.false_eq_true, if_false, if_true] <;>
    first
      | exact h
      | exact bufferInv_queueDirection _ _ h
      | exact bufferInv_queueDirection _ _ (bufferInv_queueDirection _ _ h)
      | exact bufferInv_queueDirection _ _
          (bufferInv_queueDirection _ _ (bufferInv_queueDirection _ _ h))
      | exact bufferInv_queueDirection _ _ (bufferInv_queueDirection _ _
          (bufferInv_queueDirection _ _ (bufferInv_queueDirection _ _ h)))

theorem frame_running_eq (fuel : Nat) (inp : FrameInput) (g : Session) (rng : Rand)
    (hrun : g.gameOver = false) :
    frame fuel inp g rng =
      if g.moveTimer + inp.frameTime ≥ moveInterval then step fuel (afterInput inp g) rng
      else some (afterInput inp g, rng) := by
  simp [frame, hrun, afterInput]

theorem step_moveTimer (fuel : Nat) (g : Session) (rng : Rand) (g' : Session) (rng' : Rand)
    (h : step fuel g rng = some (g', rng')) : g'.moveTimer = 0 := by
  have hbody : g.snake.segments ≠ [] := by
    intro hnil
    obtain ⟨⟨segs, dir, q⟩, food, score, over, timer⟩ := g
    simp only at hnil
    subst hnil
    cases q <;> simp [step, move] at h
  obtain ⟨moved, grown, selfHit, borderHit, head, -, -, -, -, -, -, -, -, hstep⟩ :=
    step_cases g rng hbody
  rw [hstep] at h
  split at h
  · cases hr : regenerateFood fuel grown.segments (generateFood rng).1 (generateFood rng).2 with
    | none => rw [hr] at h; simp at h
    | some p =>
      rw [hr] at h
      simp only [Option.map_some', Option.some.injEq, Prod.mk.injEq] at h
      obtain ⟨rfl, -⟩ := h
      rfl
  · simp only [Option.some.injEq, Prod.mk.injEq] at h
    obtain ⟨rfl, -⟩ := h
    rfl

/-- C14, as stated, fails: with timer 0 and elapsed time 0.30 the specification
counts 2 steps and a remaining timer 0.06, while the frame performs one move (the
head goes from (8,8) to (9,8), not to (10,8)) and leaves the timer at 0. -/
theorem frame_single_step_counterexample :
    tickCountSpec 0 (30 / 100) = 2 ∧
    timerAfterSpec 0 (30 / 100) = 6 / 100 ∧
    ((move Snake.new).bind move).map (fun m => m.segments) =
      some [⟨10, 8⟩, ⟨9, 8⟩, ⟨8, 8⟩] ∧
    (frame 1 (idleInput (30 / 100)) (initSession (streamOf [3, 3])).1
        (initSession (streamOf [3, 3])).2).map (fun p => (p.1.snake.segments, p.1.moveTimer)) =
      some ([⟨9, 8⟩, ⟨8, 8⟩, ⟨7, 8⟩], 0) ∧
    (0 : ℚ) ≠ 6 / 100 := by
  have hcount : tickCountSpec 0 (30 / 100) = 2 := by
    unfold tickCountSpec moveInterval
    rw [Int.floor_eq_iff]
    norm_num
  refine ⟨hcount, ?_, by decide, ?_, by norm_num⟩
  · unfold timerAfterSpec
    rw [hcount]
    norm_num [moveInterval]
  · rw [frame_running_eq _ _ _ _ rfl]
    have ht : (initSession (streamOf [3, 3])).1.moveTimer + (idleInput (30 / 100)).frameTime
        ≥ moveInterval := by
      norm_num [initSession, idleInput, moveInterval]
    rw [if_pos ht]
    rfl

/-- C14, amended: in a running session one frame adds the elapsed time to the move
timer; if the timer has then reached the tick interval the frame performs exactly
one discrete step, which leaves the timer at 0 however many intervals it held;
otherwise it performs no step and keeps the accumulated timer. -/
theorem frame_timer_spec (fuel : Nat) (inp : FrameInput) (g : Session) (rng : Rand)
    (hrun : g.gameOver = false) :
    (g.moveTimer + inp.frameTime ≥ moveInterval →
      frame fuel inp g rng = step fuel (afterInput inp g) rng ∧
      ∀ g' rng', frame fuel inp g rng = some (g', rng') → g'.moveTimer = 0) ∧
    (¬ (g.moveTimer + inp.frameTime ≥ moveInterval) →
      frame fuel inp g rng = some (afterInput inp g, rng) ∧
      (afterInput inp g).moveTimer = g.moveTimer + inp.frameTime ∧
      (afterInput inp g).snake.segments = g.snake.segments) := by
  rw [frame_running_eq fuel inp g rng hrun]
  constructor
  · intro ht
    rw [if_pos ht]
    exact ⟨rfl, fun g' rng' h => step_moveTimer fuel _ rng g' rng' h⟩
  · intro ht
    rw [if_neg ht]
    exact ⟨rfl, rfl, processInput_segments inp g.snake⟩

/-- C14, amended, at session start with elapsed time 0.30. -/
theorem frame_timer_spec_witness :
    (initSession (streamOf [3, 3])).1.gameOver = false ∧
    ((((initSession (streamOf [3, 3])).1.moveTimer + (idleInput (30 / 100)).frameTime
        ≥ moveInterval) →
      frame 1 (idleInput (30 / 100)) (initSession (streamOf [3, 3])).1 (streamOf []) =
        step 1 (afterInput (idleInput (30 / 100)) (initSession (streamOf [3, 3])).1)
          (streamOf []) ∧
      ∀ g' rng', frame 1 (idleInput (30 / 100)) (initSession (streamOf [3, 3])).1 (streamOf [])
        = some (g', rng') → g'.moveTimer = 0) ∧
    (¬ ((initSession (streamOf [3, 3])).1.moveTimer + (idleInput (30 / 100)).frameTime
        ≥ moveInterval) →
      frame 1 (idleInput (30 / 100)) (initSession (streamOf [3, 3])).1 (streamOf []) =
        some (afterInput (idleInput (30 / 100)) (initSession (streamOf [3, 3])).1, streamOf []) ∧
      (afterInput (idleInput (30 / 100)) (initSession (streamOf [3, 3])).1).moveTimer =
        (initSession (streamOf [3, 3])).1.moveTimer + (idleInput (30 / 100)).frameTime ∧
      (afterInput (idleInput (30 / 100)) (initSession (streamOf [3, 3])).1).snake.segments =
        (initSession (streamOf [3, 3])).1.snake.segments)) :=
  ⟨rfl, frame_timer_spec 1 (idleInput (30 / 100)) (initSession (streamOf [3, 3])).1 (streamOf [])
    rfl⟩

/-! ## C15 -/

theorem candidate_inGrid (rng : Rand) (k : Nat) : inGrid (candidate rng k) := by
  simp only [inGrid, candidate, generateFood, GRID_WIDTH, GRID_HEIGHT]
  omega

theorem regenerateFood_candidate (fuel : Nat) (segs : List Segment) (rng : Rand)
    (food : Segment) (rng1 : Rand)
    (h : regenerateFood fuel segs (generateFood rng).1 (generateFood rng).2 = some (food, rng1)) :
    foodOnSnake food segs = false ∧ ∃ k, food = candidate rng k := by
  obtain ⟨hoff, hcand⟩ := regenerateFood_sound _ _ _ _ _ _ h
  refine ⟨hoff, ?_⟩
  rcases hcand with h0 | ⟨k, hk⟩
  · exact ⟨0, by rw [candidate_zero]; exact h0⟩
  · exact ⟨k + 1, by rw [candidate_succ]; exact hk⟩

theorem fullBoard_covers (c : Segment) (hc : inGrid c) : ∃ seg ∈ fullBoard, c.x = seg.x ∧ c.y = seg.y := by
  obtain ⟨hx0, hx1, hy0, hy1⟩ := hc
  obtain ⟨a, ha⟩ := Int.eq_ofNat_of_zero_le hx0
  obtain ⟨b, hb⟩ := Int.eq_ofNat_of_zero_le hy0
  have ha16 : a < 16 := by omega
  have hb16 : b < 16 := by omega
  refine ⟨fullBoardCell (16 * b + (if b % 2 = 0 then a else 15 - a)), ?_, ?_, ?_⟩
  · refine List.mem_map.2 ⟨_, List.mem_range.2 ?_, rfl⟩
    split <;> omega
  · simp only [fullBoardCell]
    rw [ha]
    congr 1
    split <;> split <;> omega
  · simp only [fullBoardCell]
    rw [hb]
    congr 1
    split <;> omega

/-- C15, as stated, fails: for the body that covers all 256 cells of the grid, no
amount of fuel and no stream of draws lets the regeneration after a food-consuming
step end; there is no board-full outcome. -/
theorem eatFood_fullBoard_diverges :
    fullBoard.length = 256 ∧
    ¬ ∃ fuel rng, (eatFood fuel fullBoardSession rng).isSome = true := by
  refine ⟨by simp [fullBoard], ?_⟩
  rintro ⟨fuel, rng, h⟩
  unfold eatFood at h
  cases hg : grow fullBoardSession.snake with
  | none => rw [hg] at h; simp at h
  | some grown =>
    rw [hg] at h
    dsimp only at h
    cases hr : regenerateFood fuel grown.segments (generateFood rng).1 (generateFood rng).2 with
    | none => rw [hr] at h; simp at h
    | some p =>
      obtain ⟨food, rng1⟩ := p
      obtain ⟨hoff, k, hk⟩ := regenerateFood_candidate _ _ _ _ _ hr
      have hall := (foodOnSnake_false_iff food grown.segments).1 hoff
      obtain ⟨seg, hseg, hxy⟩ := fullBoard_covers food (hk ▸ candidate_inGrid rng k)
      refine hall seg ?_ hxy
      unfold grow at hg
      cases hl : fullBoardSession.snake.segments.getLast? with
      | none => rw [hl] at hg; simp at hg
      | some tail =>
        rw [hl] at hg
        simp only [Option.some.injEq] at hg
        subst hg
        exact List.mem_append_left _ hseg

/-- C15, amended: the regeneration loop run after `food = generateFood()` ends, for
some amount of fuel, exactly when some cell of the stream of draws is on no body
cell; and when it ends it returns such a drawn cell.  (For a body covering the grid
no drawn cell qualifies.) -/
theorem regeneration_terminates_iff (segs : List Segment) (rng : Rand) :
    ((∃ fuel, (regenerateFood fuel segs (generateFood rng).1 (generateFood rng).2).isSome = true)
      ↔ ∃ k, foodOnSnake (candidate rng k) segs = false) ∧
    (∀ fuel food rng1,
      regenerateFood fuel segs (generateFood rng).1 (generateFood rng).2 = some (food, rng1) →
      foodOnSnake food segs = false ∧ ∃ k, food = candidate rng k) := by
  refine ⟨⟨?_, ?_⟩, fun fuel food rng1 h => regenerateFood_candidate fuel segs rng food rng1 h⟩
  · rintro ⟨fuel, h⟩
    cases hr : regenerateFood fuel segs (generateFood rng).1 (generateFood rng).2 with
    | none => rw [hr] at h; simp at h
    | some p =>
      obtain ⟨food, rng1⟩ := p
      obtain ⟨hoff, k, hk⟩ := regenerateFood_candidate _ _ _ _ _ hr
      exact ⟨k, hk ▸ hoff⟩
  · rintro ⟨k, hk⟩
    exact ⟨k + 1, regenerateFood_terminates segs rng k hk (k + 1) (le_refl _)⟩

/-! ## Sessions reached in play -/

theorem step_body_ne_nil (fuel : Nat) (g : Session) (rng : Rand) (g' : Session) (rng' : Rand)
    (h : step fuel g rng = some (g', rng')) : g.snake.segments ≠ [] := by
  intro hnil
  obtain ⟨⟨segs, dir, q⟩, food, score, over, timer⟩ := g
  simp only at hnil
  subst hnil
  cases q <;> simp [step, move] at h

/-- The result of a completed discrete step, spelled out on a body `h0 :: rest`. -/
theorem step_result (fuel : Nat) (g : Session) (rng : Rand) (g' : Session) (rng' : Rand)
    (h0 : Segment) (rest : List Segment) (hsegs : g.snake.segments = h0 :: rest)
    (hstep : step fuel g rng = some (g', rng')) :
    g'.snake.dir = g.snake.inputQueue.head?.getD g.snake.dir ∧
    g'.snake.inputQueue = g.snake.inputQueue.tail ∧
    g'.gameOver =
      (if (selfCollisionLoop (offsetHead g'.snake.dir h0) (h0 :: rest).dropLast ||
          decide ((offsetHead g'.snake.dir h0).x < 0 ∨ (offsetHead g'.snake.dir h0).x ≥ GRID_WIDTH ∨
            (offsetHead g'.snake.dir h0).y < 0 ∨ (offsetHead g'.snake.dir h0).y ≥ GRID_HEIGHT))
        then true else g.gameOver) ∧
    ((¬ ((offsetHead g'.snake.dir h0).x = g.food.x ∧ (offsetHead g'.snake.dir h0).y = g.food.y) ∧
        g'.snake.segments = offsetHead g'.snake.dir h0 :: (h0 :: rest).dropLast ∧
        g'.food = g.food ∧ g'.score = g.score ∧ rng' = rng) ∨
     (((offsetHead g'.snake.dir h0).x = g.food.x ∧ (offsetHead g'.snake.dir h0).y = g.food.y) ∧
        (∃ t, (offsetHead g'.snake.dir h0 :: (h0 :: rest).dropLast).getLast? = some t ∧
          g'.snake.segments = offsetHead g'.snake.dir h0 :: (h0 :: rest).dropLast ++ [t]) ∧
        g'.score = g.score + 1 ∧
        foodOnSnake g'.food g'.snake.segments = false ∧ ∃ k, g'.food = candidate rng k)) := by
  obtain ⟨⟨segs, dir, q⟩, food, score, over, timer⟩ := g
  simp only at hsegs
  subst hsegs
  obtain ⟨moved, grown, selfHit, borderHit, head, hm, hg, hs, hb, hh, -, -, -, hst⟩ :=
    step_cases ⟨⟨h0 :: rest, dir, q⟩, food, score, over, timer⟩ rng (by simp)
  simp only at hm
  rw [move_eq] at hm
  simp only [Option.some.injEq] at hm
  subst hm
  have hne : (offsetHead (q.head?.getD dir) h0 :: (h0 :: rest).dropLast) ≠ [] := by simp
  have hg2 := grow_eq
    (⟨offsetHead (q.head?.getD dir) h0 :: (h0 :: rest).dropLast, q.head?.getD dir, q.tail⟩ : Snake)
    hne
  rw [hg2] at hg
  simp only [Option.some.injEq] at hg
  subst hg
  simp only [checkSelfCollision, Option.some.injEq] at hs
  simp only [checkBorderCollision, Option.some.injEq] at hb
  simp only [getHead, List.head?_cons, Option.some.injEq] at hh
  subst hs hb hh
  rw [hst] at hstep
  split at hstep
  · rename_i heat
    cases hr : regenerateFood fuel
        (offsetHead (q.head?.getD dir) h0 :: (h0 :: rest).dropLast ++
          [(offsetHead (q.head?.getD dir) h0 :: (h0 :: rest).dropLast).getLast hne])
        (generateFood rng).1 (generateFood rng).2 with
    | none => rw [hr] at hstep; simp at hstep
    | some p =>
      obtain ⟨food1, rng1⟩ := p
      rw [hr] at hstep
      simp only [Option.map_some', Option.some.injEq, Prod.mk.injEq] at hstep
      obtain ⟨rfl, rfl⟩ := hstep
      obtain ⟨hoff, hk⟩ := regenerateFood_candidate _ _ _ _ _ hr
      refine ⟨rfl, rfl, rfl, Or.inr ⟨heat, ⟨_, List.getLast?_eq_getLast _ hne, rfl⟩, rfl, hoff, hk⟩⟩
  · rename_i hne2
    simp only [Option.some.injEq, Prod.mk.injEq] at hstep
    obtain ⟨rfl, rfl⟩ := hstep
    exact ⟨rfl, rfl, rfl, Or.inl ⟨hne2, rfl, rfl, rfl, rfl⟩⟩

theorem selfCollisionLoop_eq_foodOnSnake (head : Segment) (segs : List Segment) :
    selfCollisionLoop head segs = foodOnSnake head segs := by
  induction segs with
  | nil => rfl
  | cons c rest ih => simp only [selfCollisionLoop, foodOnSnake, ih]

theorem opposite_ne_self (d : Direction) : d ≠ opposite d := by
  cases d <;> simp [opposite]

theorem offsetHead_ne (d : Direction) (c : Segment) :
    ¬ ((offsetHead d c).x = c.x ∧ (offsetHead d c).y = c.y) := by
  cases d <;> simp [offsetHead]

theorem offsetHead_no_return (d e : Direction) (c : Segment) (hde : e ≠ opposite d) :
    ¬ ((offsetHead e (offsetHead d c)).x = c.x ∧ (offsetHead e (offsetHead d c)).y = c.y) := by
  cases d <;> cases e <;> simp [opposite] at hde <;> simp [offsetHead] <;> omega

theorem adjacent_offsetHead (d : Direction) (c : Segment) : adjacent (offsetHead d c) c := by
  cases d <;> simp [adjacent, offsetHead]

theorem next_dir_ne_opposite (s : Snake) (h : bufferInv s) :
    s.inputQueue.head?.getD s.dir ≠ opposite s.dir := by
  obtain ⟨-, -, hrev⟩ := h
  cases hq : s.inputQueue with
  | nil => simpa using opposite_ne_self s.dir
  | cons a q =>
    rw [hq] at hrev
    simpa using hrev.1

theorem bodyShape_dropLast (segs : List Segment) (h : bodyShape segs) :
    segs.dropLast.Chain' adjacent := by
  rcases h with h | ⟨B, t, hB, -, rfl⟩
  · exact h.prefix (List.dropLast_prefix segs)
  · simpa using hB

theorem foodOnSnake_false_of_subset (food : Segment) (l l' : List Segment)
    (h : foodOnSnake food l = false) (hsub : ∀ c ∈ l', c ∈ l) : foodOnSnake food l' = false := by
  rw [foodOnSnake_false_iff] at h ⊢
  exact fun seg hseg => h seg (hsub seg hseg)

theorem sessionInv_fresh (food : Segment) (hfood : inGrid food) (timer : ℚ) :
    SessionInv ⟨Snake.new, food, 0, false, timer⟩ where
  buffer := bufferInv_new
  length_score := by simp [Snake.new]
  score_nonneg := le_refl _
  neck := ⟨⟨8, 8⟩, ⟨7, 8⟩, [⟨6, 8⟩], rfl, by simp [Snake.new, offsetHead]⟩
  food_inGrid := hfood
  food_off := Or.inr rfl
  shape := Or.inl (by simp [Snake.new, adjacent])
  running := fun _ => ⟨by simp [Snake.new, inGrid], by
    intro h rest hs
    simp only [Snake.new, List.cons.injEq] at hs
    obtain ⟨rfl, rfl⟩ := hs
    simp [selfCollisionLoop]⟩

theorem sessionInv_afterInput (inp : FrameInput) (g : Session) (h : SessionInv g) :
    SessionInv (afterInput inp g) where
  buffer := bufferInv_processInput inp g.snake h.buffer
  length_score := by
    simpa only [afterInput, processInput_segments] using h.length_score
  score_nonneg := h.score_nonneg
  neck := by
    simpa only [afterInput, processInput_segments, processInput_dir] using h.neck
  food_inGrid := h.food_inGrid
  food_off := by
    simpa only [afterInput, processInput_segments] using h.food_off
  shape := by
    simpa only [afterInput, processInput_segments] using h.shape
  running := by
    simpa only [afterInput, processInput_segments] using h.running

/-- With the live direction not reversed, a move from a session reached in play
cannot both hit (itself or the border) and land on the food cell. -/
theorem no_collision_on_food (g : Session) (hinv : SessionInv g) (h0 : Segment)
    (rest : List Segment) (hsegs : g.snake.segments = h0 :: rest) (d : Direction)
    (hd : d ≠ opposite g.snake.dir)
    (hcoll : (selfCollisionLoop (offsetHead d h0) (h0 :: rest).dropLast ||
      decide ((offsetHead d h0).x < 0 ∨ (offsetHead d h0).x ≥ GRID_WIDTH ∨
        (offsetHead d h0).y < 0 ∨ (offsetHead d h0).y ≥ GRID_HEIGHT)) = true) :
    ¬ ((offsetHead d h0).x = g.food.x ∧ (offsetHead d h0).y = g.food.y) := by
  rintro ⟨hx, hy⟩
  rw [Bool.or_eq_true] at hcoll
  rcases hcoll with hself | hborder
  · rw [selfCollisionLoop_eq_foodOnSnake, foodOnSnake_iff] at hself
    obtain ⟨seg, hseg, hsx, hsy⟩ := hself
    rcases hinv.food_off with hoff | hlen
    · rw [foodOnSnake_false_iff] at hoff
      refine hoff seg ?_ ⟨by rw [← hx, hsx], by rw [← hy, hsy]⟩
      rw [hsegs]
      exact List.mem_of_mem_dropLast hseg
    · obtain ⟨h1, n1, rest1, hsegs1, hneck⟩ := hinv.neck
      rw [hsegs1] at hsegs hlen
      simp only [List.cons.injEq] at hsegs
      obtain ⟨rfl, rfl⟩ := hsegs
      obtain ⟨t1, rfl⟩ : ∃ t1, rest1 = [t1] := by
        match rest1, hlen with
        | [t1], _ => exact ⟨t1, rfl⟩
      simp only [List.dropLast_cons₂, List.dropLast_single, List.mem_cons, List.mem_singleton,
        List.not_mem_nil, or_false] at hseg
      rcases hseg with rfl | rfl
      · exact offsetHead_ne d seg ⟨hsx, hsy⟩
      · rw [hneck] at hsx hsy
        exact offsetHead_no_return g.snake.dir d seg hd ⟨hsx, hsy⟩
  · have hin := hinv.food_inGrid
    simp only [inGrid] at hin
    simp only [GRID_WIDTH, GRID_HEIGHT, decide_eq_true_eq] at hborder
    omega

/-- A completed discrete step from a running session keeps the session facts. -/
theorem sessionInv_step (fuel : Nat) (g : Session) (rng : Rand) (g' : Session) (rng' : Rand)
    (hinv : SessionInv g) (hrun : g.gameOver = false)
    (hstep : step fuel g rng = some (g', rng')) : SessionInv g' := by
  obtain ⟨h0, n0, rest1, hsegs, hneck⟩ := hinv.neck
  have hls := hinv.length_score
  have hsn := hinv.score_nonneg
  obtain ⟨t0, rest, rfl⟩ : ∃ t0 rest, rest1 = t0 :: rest := by
    cases rest1 with
    | nil =>
      rw [hsegs] at hls
      simp only [List.length_cons, List.length_nil] at hls
      omega
    | cons t0 rest => exact ⟨t0, rest, rfl⟩
  obtain ⟨hdir, hq, hover, hres⟩ :=
    step_result fuel g rng g' rng' h0 (n0 :: t0 :: rest) hsegs hstep
  have hdrop : (h0 :: n0 :: t0 :: rest).dropLast = h0 :: n0 :: (t0 :: rest).dropLast := by simp
  rw [hdrop] at hover hres
  have hsub : ∀ c ∈ h0 :: n0 :: (t0 :: rest).dropLast, c ∈ g.snake.segments := by
    intro c hc
    rw [hsegs]
    rw [← hdrop] at hc
    exact List.mem_of_mem_dropLast hc
  have hadj : adjacent (offsetHead g'.snake.dir h0) h0 := adjacent_offsetHead _ _
  have hchain : (offsetHead g'.snake.dir h0 :: h0 :: n0 :: (t0 :: rest).dropLast).Chain' adjacent := by
    have := bodyShape_dropLast _ hinv.shape
    rw [hsegs, hdrop] at this
    exact List.chain'_cons.2 ⟨hadj, this⟩
  have hbuf : g'.snake.inputQueue.length ≤ 2 ∧ noReverse g'.snake.dir g'.snake.inputQueue := by
    obtain ⟨-, hlen, hrev⟩ := hinv.buffer
    rw [hq, hdir]
    cases hqq : g.snake.inputQueue with
    | nil => simp [noReverse]
    | cons a q =>
      rw [hqq] at hlen hrev
      simp only [List.length_cons] at hlen
      exact ⟨by simp only [List.tail_cons]; omega, by simpa using hrev.2⟩
  generalize hnh : offsetHead g'.snake.dir h0 = nh at hover hres hchain
  have hrunning : ∀ body : List Segment, g'.gameOver = false →
      (body = nh :: h0 :: n0 :: (t0 :: rest).dropLast ∨
        ∃ t, t ∈ h0 :: n0 :: (t0 :: rest).dropLast ∧
          body = nh :: (h0 :: n0 :: (t0 :: rest).dropLast ++ [t])) →
      (∀ c ∈ body, inGrid c) ∧ ∀ h r, body = h :: r → selfCollisionLoop h r = false := by
    intro body hg' hbody
    rw [hg', hrun] at hover
    have hnc : (selfCollisionLoop nh (h0 :: n0 :: (t0 :: rest).dropLast) ||
        decide (nh.x < 0 ∨ nh.x ≥ GRID_WIDTH ∨ nh.y < 0 ∨ nh.y ≥ GRID_HEIGHT)) = false := by
      cases hb : (selfCollisionLoop nh (h0 :: n0 :: (t0 :: rest).dropLast) ||
        decide (nh.x < 0 ∨ nh.x ≥ GRID_WIDTH ∨ nh.y < 0 ∨ nh.y ≥ GRID_HEIGHT)) with
      | false => rfl
      | true => rw [hb] at hover; simp at hover
    rw [Bool.or_eq_false_iff] at hnc
    obtain ⟨hself, hborder⟩ := hnc
    have hnh_in : inGrid nh := by
      simp only [GRID_WIDTH, GRID_HEIGHT, decide_eq_false_iff_not] at hborder
      simp only [inGrid]
      omega
    have hold := (hinv.running hrun).1
    have htail_in : ∀ c ∈ h0 :: n0 :: (t0 :: rest).dropLast, inGrid c :=
      fun c hc => hold c (hsub c hc)
    rcases hbody with rfl | ⟨t, ht, rfl⟩
    · refine ⟨?_, ?_⟩
      · intro c hc
        rcases List.mem_cons.1 hc with rfl | hc
        · exact hnh_in
        · exact htail_in c hc
      · intro h r hhr
        simp only [List.cons.injEq] at hhr
        obtain ⟨rfl, rfl⟩ := hhr
        exact hself
    · refine ⟨?_, ?_⟩
      · intro c hc
        rcases List.mem_cons.1 hc with rfl | hc
        · exact hnh_in
        · rcases List.mem_append.1 hc with hc | hc
          · exact htail_in c hc
          · rw [List.mem_singleton] at hc
            subst hc
            exact htail_in c ht
      · intro h r hhr
        simp only [List.cons.injEq] at hhr
        obtain ⟨rfl, rfl⟩ := hhr
        rw [selfCollisionLoop_eq_foodOnSnake] at hself ⊢
        refine foodOnSnake_false_of_subset _ _ _ hself ?_
        intro c hc
        rcases List.mem_append.1 hc with hc | hc
        · exact hc
        · rw [List.mem_singleton] at hc
          subst hc
          exact ht
  rcases hres with ⟨hne, hbody, hfood, hscore, -⟩ | ⟨heat, ⟨t, ht, hbody⟩, hscore, hoff, k, hk⟩
  · exact
      { buffer := ⟨by rw [hbody]; simp, hbuf.1, hbuf.2⟩
        length_score := by
          have h1 : g'.snake.segments.length = g.snake.segments.length := by
            rw [hbody, hsegs]
            simp
          rw [h1, hscore]
          exact hls
        score_nonneg := by rw [hscore]; exact hsn
        neck := ⟨nh, h0, n0 :: (t0 :: rest).dropLast, hbody, hnh.symm⟩
        food_inGrid := by rw [hfood]; exact hinv.food_inGrid
        food_off := by
          rcases hinv.food_off with hoff | hlen3
          · left
            rw [hfood, hbody, foodOnSnake_false_iff]
            intro seg hseg
            rcases List.mem_cons.1 hseg with rfl | hseg
            · exact fun hxy => hne ⟨hxy.1.symm, hxy.2.symm⟩
            · exact (foodOnSnake_false_iff _ _).1 hoff seg (hsub seg hseg)
          · right
            rw [← hlen3, hbody, hsegs]
            simp
        shape := by rw [hbody]; exact Or.inl hchain
        running := fun hg' => by
          rw [hbody]
          exact hrunning _ hg' (Or.inl rfl) }
  · have htmem : t ∈ h0 :: n0 :: (t0 :: rest).dropLast := by
      rw [List.getLast?_cons_cons] at ht
      exact List.mem_of_getLast?_eq_some ht
    exact
      { buffer := ⟨by rw [hbody]; simp, hbuf.1, hbuf.2⟩
        length_score := by
          have h1 : g'.snake.segments.length = g.snake.segments.length + 1 := by
            rw [hbody, hsegs]
            simp
          rw [h1, hscore]
          push_cast
          omega
        score_nonneg := by rw [hscore]; omega
        neck := ⟨nh, h0, n0 :: (t0 :: rest).dropLast ++ [t], by rw [hbody]; rfl, hnh.symm⟩
        food_inGrid := by rw [hk]; exact candidate_inGrid rng k
        food_off := Or.inl hoff
        shape := by
          rw [hbody]
          exact Or.inr ⟨_, t, hchain, ht, rfl⟩
        running := fun hg' => by
          rw [hbody]
          exact hrunning _ hg' (Or.inr ⟨t, htmem, rfl⟩) }

theorem sessionInv_frame (fuel : Nat) (inp : FrameInput) (g : Session) (rng : Rand)
    (g' : Session) (rng' : Rand) (hinv : SessionInv g)
    (hframe : frame fuel inp g rng = some (g', rng')) : SessionInv g' := by
  cases hover : g.gameOver with
  | false =>
    rw [frame_running_eq fuel inp g rng hover] at hframe
    split at hframe
    · exact sessionInv_step fuel _ rng g' rng' (sessionInv_afterInput inp g hinv) hover hframe
    · simp only [Option.some.injEq, Prod.mk.injEq] at hframe
      obtain ⟨rfl, -⟩ := hframe
      exact sessionInv_afterInput inp g hinv
  | true =>
    cases hsp : inp.space with
    | false =>
      rw [frame_gameOver_same fuel inp g rng hover hsp] at hframe
      simp only [Option.some.injEq, Prod.mk.injEq] at hframe
      obtain ⟨rfl, -⟩ := hframe
      exact hinv
    | true =>
      have : frame fuel inp g rng = some (reset g rng) := by simp [frame, hover, hsp]
      rw [this] at hframe
      simp only [Option.some.injEq] at hframe
      have hg' : g' = (reset g rng).1 := by rw [hframe]
      rw [hg']
      exact sessionInv_fresh _ (by rw [← candidate_zero]; exact candidate_inGrid rng 0) 0

/-- Every session reached from a session start by frames has the session facts. -/
theorem sessionInv_runFrames (frames : List (Nat × FrameInput)) (st : Session × Rand)
    (g : Session) (rng' : Rand) (hinv : SessionInv st.1)
    (hrun : runFrames frames st = some (g, rng')) : SessionInv g := by
  induction frames generalizing st with
  | nil =>
    simp only [runFrames, Option.some.injEq] at hrun
    rw [hrun] at hinv
    exact hinv
  | cons fr frames ih =>
    obtain ⟨fuel, inp⟩ := fr
    simp only [runFrames] at hrun
    cases hf : frame fuel inp st.1 st.2 with
    | none => rw [hf] at hrun; simp at hrun
    | some st1 =>
      rw [hf] at hrun
      exact ih st1 (sessionInv_frame fuel inp st.1 st.2 st1.1 st1.2 hinv hf) hrun

theorem sessionInv_reachable (frames : List (Nat × FrameInput)) (rng : Rand)
    (g : Session) (rng' : Rand)
    (hreach : runFrames frames (initSession rng) = some (g, rng')) : SessionInv g :=
  sessionInv_runFrames frames (initSession rng) g rng'
    (sessionInv_fresh _ (by rw [← candidate_zero]; exact candidate_inGrid rng 0) 0) hreach

theorem eatingFrames_reach :
    runFrames eatingFrames (initSession eatingStream) =
      some (afterEatingSession, afterEatingStream) := by
  have ht : (initSession eatingStream).1.moveTimer + (idleInput (3 / 10)).frameTime
      ≥ moveInterval := by
    norm_num [initSession, idleInput, moveInterval]
  have hf : frame 2 (idleInput (3 / 10)) (initSession eatingStream).1
      (initSession eatingStream).2 = some (afterEatingSession, afterEatingStream) := by
    rw [frame_running_eq _ _ _ _ rfl, if_pos ht]
    rfl
  simp only [eatingFrames, runFrames, hf]

theorem chain_adjacent_getElem (l : List Segment) (h : l.Chain' adjacent) (i : Nat)
    (a b : Segment) (ha : l[i]? = some a) (hb : l[i + 1]? = some b) : adjacent a b := by
  induction l generalizing i with
  | nil => simp at ha
  | cons c rest ih =>
    cases rest with
    | nil => simp at hb
    | cons d rest2 =>
      obtain ⟨hcd, hrest⟩ := List.chain'_cons.1 h
      cases i with
      | zero =>
        simp only [List.getElem?_cons_zero, List.getElem?_cons_succ, Option.some.injEq] at ha hb
        subst ha hb
        exact hcd
      | succ k =>
        rw [List.getElem?_cons_succ] at ha hb
        exact ih hrest k ha hb

theorem bodyShape_getElem (segs : List Segment) (h : bodyShape segs) (i : Nat)
    (a b : Segment) (ha : segs[i]? = some a) (hb : segs[i + 1]? = some b) :
    adjacent a b ∨ (a = b ∧ i + 2 = segs.length) := by
  rcases h with h | ⟨B, t, hB, ht, rfl⟩
  · exact Or.inl (chain_adjacent_getElem segs h i a b ha hb)
  · by_cases hi : i + 1 < B.length
    · left
      rw [List.getElem?_append_left (by omega)] at ha
      rw [List.getElem?_append_left hi] at hb
      exact chain_adjacent_getElem B hB i a b ha hb
    · right
      have hlt : i + 1 < (B ++ [t]).length := by
        by_contra hge
        rw [List.getElem?_eq_none (by omega)] at hb
        simp at hb
      simp only [List.length_append, List.length_singleton] at hlt
      have hiB : i + 1 = B.length := by omega
      refine ⟨?_, by simp; omega⟩
      rw [List.getElem?_append_left (by omega)] at ha
      rw [List.getElem?_append_right (by omega)] at hb
      have hb' : b = t := by
        have : i + 1 - B.length = 0 := by omega
        rw [this] at hb
        simpa using hb.symm
      rw [List.getLast?_eq_getElem?] at ht
      have : B.length - 1 = i := by omega
      rw [this, ha] at ht
      simp only [Option.some.injEq] at ht
      rw [ht, hb']

/-! ## C16 -/

/-- C16, as stated, fails: the session reached from a start with food at (9,8) by
one step has the body `[(9,8),(8,8),(7,8),(7,8)]`; its cells 2 and 3 are the same
cell (the tail duplicated by `grow`), hence not grid-adjacent. -/
theorem body_not_adjacent_after_eating :
    runFrames eatingFrames (initSession eatingStream) =
      some (afterEatingSession, afterEatingStream) ∧
    afterEatingSession.snake.segments[2]? = some ⟨7, 8⟩ ∧
    afterEatingSession.snake.segments[3]? = some ⟨7, 8⟩ ∧
    ¬ adjacent ⟨7, 8⟩ ⟨7, 8⟩ := by
  refine ⟨eatingFrames_reach, rfl, rfl, ?_⟩
  simp [adjacent]

/-- C16, amended: in every session reached from session start by frames, the body is
non-empty and every pair of consecutive body cells is grid-adjacent, except that the
last two cells may be one and the same cell (the tail duplicated by `grow`). -/
theorem body_shape_reachable (frames : List (Nat × FrameInput)) (rng : Rand) (g : Session)
    (rng' : Rand) (hreach : runFrames frames (initSession rng) = some (g, rng')) :
    g.snake.segments ≠ [] ∧
    ∀ i a b, g.snake.segments[i]? = some a → g.snake.segments[i + 1]? = some b →
      adjacent a b ∨ (a = b ∧ i + 2 = g.snake.segments.length) := by
  have hinv := sessionInv_reachable frames rng g rng' hreach
  exact ⟨hinv.buffer.1, fun i a b ha hb => bodyShape_getElem _ hinv.shape i a b ha hb⟩

/-- C16, amended, at the session reached by the eating scenario. -/
theorem body_shape_reachable_witness :
    runFrames eatingFrames (initSession eatingStream) =
      some (afterEatingSession, afterEatingStream) ∧
    (afterEatingSession.snake.segments ≠ [] ∧
    ∀ i a b, afterEatingSession.snake.segments[i]? = some a →
      afterEatingSession.snake.segments[i + 1]? = some b →
      adjacent a b ∨ (a = b ∧ i + 2 = afterEatingSession.snake.segments.length)) :=
  ⟨eatingFrames_reach,
    body_shape_reachable eatingFrames eatingStream afterEatingSession afterEatingStream
      eatingFrames_reach⟩

/-! ## C18 -/

/-- C18: in every session reached from session start by frames, the body length
equals score + 3 and the score is non-negative. -/
theorem length_score_reachable (frames : List (Nat × FrameInput)) (rng : Rand) (g : Session)
    (rng' : Rand) (hreach : runFrames frames (initSession rng) = some (g, rng')) :
    (g.snake.segments.length : Int) = g.score + 3 ∧ 0 ≤ g.score := by
  have hinv := sessionInv_reachable frames rng g rng' hreach
  exact ⟨hinv.length_score, hinv.score_nonneg⟩

/-- C18 at the session reached by the eating scenario (4 cells, score 1). -/
theorem length_score_reachable_witness :
    runFrames eatingFrames (initSession eatingStream) =
      some (afterEatingSession, afterEatingStream) ∧
    ((afterEatingSession.snake.segments.length : Int) = afterEatingSession.score + 3 ∧
      0 ≤ afterEatingSession.score) :=
  ⟨eatingFrames_reach,
    length_score_reachable eatingFrames eatingStream afterEatingSession afterEatingStream
      eatingFrames_reach⟩

/-! ## C19 -/

/-- C19: in every session reached from session start by frames whose game-over flag
is false, every body cell lies in `[0,16) x [0,16)` and the head differs from every
other body cell; and in every reached session the food cell lies in the grid. -/
theorem in_grid_reachable (frames : List (Nat × FrameInput)) (rng : Rand) (g : Session)
    (rng' : Rand) (hreach : runFrames frames (initSession rng) = some (g, rng')) :
    (g.gameOver = false →
      (∀ c ∈ g.snake.segments, 0 ≤ c.x ∧ c.x < 16 ∧ 0 ≤ c.y ∧ c.y < 16) ∧
      ∃ h rest, g.snake.segments = h :: rest ∧ ∀ c ∈ rest, c ≠ h) ∧
    (0 ≤ g.food.x ∧ g.food.x < 16 ∧ 0 ≤ g.food.y ∧ g.food.y < 16) := by
  have hinv := sessionInv_reachable frames rng g rng' hreach
  refine ⟨fun hrun => ?_, hinv.food_inGrid⟩
  obtain ⟨hcells, hself⟩ := hinv.running hrun
  refine ⟨hcells, ?_⟩
  obtain ⟨h, n, rest, hsegs, -⟩ := hinv.neck
  refine ⟨h, n :: rest, hsegs, ?_⟩
  have := hself h (n :: rest) hsegs
  rw [selfCollisionLoop_eq_foodOnSnake, foodOnSnake_false_iff] at this
  intro c hc hch
  exact this c hc ⟨by rw [hch], by rw [hch]⟩

/-- C19 at the session reached by the eating scenario. -/
theorem in_grid_reachable_witness :
    runFrames eatingFrames (initSession eatingStream) =
      some (afterEatingSession, afterEatingStream) ∧
    ((afterEatingSession.gameOver = false →
      (∀ c ∈ afterEatingSession.snake.segments, 0 ≤ c.x ∧ c.x < 16 ∧ 0 ≤ c.y ∧ c.y < 16) ∧
      ∃ h rest, afterEatingSession.snake.segments = h :: rest ∧ ∀ c ∈ rest, c ≠ h) ∧
    (0 ≤ afterEatingSession.food.x ∧ afterEatingSession.food.x < 16 ∧
      0 ≤ afterEatingSession.food.y ∧ afterEatingSession.food.y < 16)) :=
  ⟨eatingFrames_reach,
    in_grid_reachable eatingFrames eatingStream afterEatingSession afterEatingStream
      eatingFrames_reach⟩

/-! ## C17 -/

theorem move_no_reversal (s : Snake) (hbuf : bufferInv s) (h n : Segment)
    (rest : List Segment) (hsegs : s.segments = h :: n :: rest)
    (hneck : h = offsetHead s.dir n) :
    ∃ m, move s = some m ∧ m.dir ≠ opposite s.dir ∧
      m.segments.head? = some (offsetHead m.dir h) ∧ m.segments.head? ≠ some n := by
  have hd := next_dir_ne_opposite s hbuf
  obtain ⟨segs, dir, q⟩ := s
  simp only at hsegs hneck hd
  subst hsegs
  refine ⟨_, move_eq h (n :: rest) dir q, hd, rfl, ?_⟩
  simp only [List.head?_cons, ne_eq, Option.some.injEq]
  intro heq
  apply offsetHead_no_return dir (q.head?.getD dir) n hd
  rw [← hneck, heq]
  exact ⟨rfl, rfl⟩

/-- C17: a session starts with live direction RIGHT, and in every session reached
from session start by frames (resets included), whatever direction keys the next
frame brings, the head `h` stands one unit from the neck in the live direction (the
direction of the preceding move), and the next `move` is defined, applies a
direction that is not the opposite of the live direction, puts the head one unit
from `h` in the applied direction, and never puts it on the neck. -/
theorem no_reversal_reachable (frames : List (Nat × FrameInput)) (rng : Rand) (g : Session)
    (rng' : Rand) (inp : FrameInput)
    (hreach : runFrames frames (initSession rng) = some (g, rng')) :
    (initSession rng).1.snake.dir = Direction.RIGHT ∧
    ∃ h neck m, g.snake.segments.head? = some h ∧ g.snake.segments[1]? = some neck ∧
      h = offsetHead g.snake.dir neck ∧
      move (processInput inp g.snake) = some m ∧
      m.dir ≠ opposite g.snake.dir ∧
      m.segments.head? = some (offsetHead m.dir h) ∧
      m.segments.head? ≠ some neck := by
  have hinv := sessionInv_reachable frames rng g rng' hreach
  obtain ⟨h, n, rest, hsegs, hneck⟩ := hinv.neck
  obtain ⟨m, hm, hd, hhead, hne⟩ :=
    move_no_reversal (processInput inp g.snake) (bufferInv_processInput inp _ hinv.buffer)
      h n rest (by rw [processInput_segments, hsegs]) (by rw [processInput_dir]; exact hneck)
  rw [processInput_dir] at hd
  exact ⟨rfl, h, n, m, by rw [hsegs]; rfl, by rw [hsegs]; simp, hneck, hm, hd, hhead, hne⟩

/-- C17 at the session reached by the eating scenario, with all four direction keys
pressed in the next frame. -/
theorem no_reversal_reachable_witness :
    runFrames eatingFrames (initSession eatingStream) =
      some (afterEatingSession, afterEatingStream) ∧
    ((initSession eatingStream).1.snake.dir = Direction.RIGHT ∧
    ∃ h neck m, afterEatingSession.snake.segments.head? = some h ∧
      afterEatingSession.snake.segments[1]? = some neck ∧
      h = offsetHead afterEatingSession.snake.dir neck ∧
      move (processInput directionsInput afterEatingSession.snake) = some m ∧
      m.dir ≠ opposite afterEatingSession.snake.dir ∧
      m.segments.head? = some (offsetHead m.dir h) ∧
      m.segments.head? ≠ some neck) :=
  ⟨eatingFrames_reach,
    no_reversal_reachable eatingFrames eatingStream afterEatingSession afterEatingStream
      directionsInput eatingFrames_reach⟩

/-! ## C20 -/

theorem inv_step_collision (g : Session) (rng : Rand) (hinv : SessionInv g) :
    ∃ moved selfHit borderHit head,
      move g.snake = some moved ∧
      checkSelfCollision moved = some selfHit ∧
      checkBorderCollision moved = some borderHit ∧
      getHead moved = some head ∧
      ¬ ((selfHit = true ∨ borderHit = true) ∧ (head.x = g.food.x ∧ head.y = g.food.y)) ∧
      ((selfHit = true ∨ borderHit = true) →
        ∀ fuel, ∃ g', step fuel g rng = some (g', rng) ∧
          g'.score = g.score ∧ g'.food = g.food ∧
          g'.snake.segments.length = g.snake.segments.length) := by
  have hd := next_dir_ne_opposite g.snake hinv.buffer
  obtain ⟨moved, grown, selfHit, borderHit, head, hm, -, hs, hb, hh, hlm, -, -, hstep⟩ :=
    step_cases g rng hinv.buffer.1
  obtain ⟨h0, n0, rest, hsegs, -⟩ := hinv.neck
  have hnc := no_collision_on_food g hinv h0 (n0 :: rest) hsegs _ hd
  have hmoved : moved = ⟨offsetHead (g.snake.inputQueue.head?.getD g.snake.dir) h0 ::
      (h0 :: n0 :: rest).dropLast, g.snake.inputQueue.head?.getD g.snake.dir,
      g.snake.inputQueue.tail⟩ := by
    have := move_eq h0 (n0 :: rest) g.snake.dir g.snake.inputQueue
    rw [← hsegs] at this
    rw [show (⟨g.snake.segments, g.snake.dir, g.snake.inputQueue⟩ : Snake) = g.snake from rfl,
      hm] at this
    simpa [hsegs] using this
  subst hmoved
  simp only [checkSelfCollision, Option.some.injEq] at hs
  simp only [checkBorderCollision, Option.some.injEq] at hb
  simp only [getHead, List.head?_cons, Option.some.injEq] at hh
  subst hs hb hh
  have hnot : (selfCollisionLoop (offsetHead (g.snake.inputQueue.head?.getD g.snake.dir) h0)
        (h0 :: n0 :: rest).dropLast = true ∨
      decide ((offsetHead (g.snake.inputQueue.head?.getD g.snake.dir) h0).x < 0 ∨
        (offsetHead (g.snake.inputQueue.head?.getD g.snake.dir) h0).x ≥ GRID_WIDTH ∨
        (offsetHead (g.snake.inputQueue.head?.getD g.snake.dir) h0).y < 0 ∨
        (offsetHead (g.snake.inputQueue.head?.getD g.snake.dir) h0).y ≥ GRID_HEIGHT) = true) →
      ¬ ((offsetHead (g.snake.inputQueue.head?.getD g.snake.dir) h0).x = g.food.x ∧
        (offsetHead (g.snake.inputQueue.head?.getD g.snake.dir) h0).y = g.food.y) := by
    intro hc
    exact hnc (by rw [Bool.or_eq_true]; exact hc)
  refine ⟨_, _, _, _, hm, rfl, rfl, rfl, fun hboth => hnot hboth.1 hboth.2, ?_⟩
  intro hcoll fuel
  rw [hstep, if_neg (hnot hcoll)]
  exact ⟨_, rfl, rfl, rfl, hlm⟩

/-- C20: in every session reached from session start by frames (whatever the draws,
so also with a start or post-reset food on the snake), whatever keys the next frame
brings, the next discrete step never both detects a collision and finds the head on
the food cell; and a colliding step completes with the score, the food and the body
length it started with, drawing nothing from the stream. -/
theorem no_collision_with_food_reachable (frames : List (Nat × FrameInput)) (rng : Rand)
    (g : Session) (rng' : Rand) (inp : FrameInput)
    (hreach : runFrames frames (initSession rng) = some (g, rng')) :
    ∃ moved selfHit borderHit head,
      move (afterInput inp g).snake = some moved ∧
      checkSelfCollision moved = some selfHit ∧
      checkBorderCollision moved = some borderHit ∧
      getHead moved = some head ∧
      ¬ ((selfHit = true ∨ borderHit = true) ∧ (head.x = g.food.x ∧ head.y = g.food.y)) ∧
      ((selfHit = true ∨ borderHit = true) →
        ∀ fuel, ∃ g', step fuel (afterInput inp g) rng' = some (g', rng') ∧
          g'.score = g.score ∧ g'.food = g.food ∧
          g'.snake.segments.length = g.snake.segments.length) := by
  have hinv := sessionInv_afterInput inp g (sessionInv_reachable frames rng g rng' hreach)
  obtain ⟨moved, selfHit, borderHit, head, hm, hs, hb, hh, hnot, hcoll⟩ :=
    inv_step_collision (afterInput inp g) rng' hinv
  refine ⟨moved, selfHit, borderHit, head, hm, hs, hb, hh, hnot, ?_⟩
  intro hc fuel
  obtain ⟨g', hstep, hscore, hfood, hlen⟩ := hcoll hc fuel
  refine ⟨g', hstep, hscore, hfood, ?_⟩
  rw [hlen]
  simp only [afterInput, processInput_segments]

/-- C20 at the session reached by the eating scenario, with all four direction keys
pressed in the next frame. -/
theorem no_collision_with_food_reachable_witness :
    runFrames eatingFrames (initSession eatingStream) =
      some (afterEatingSession, afterEatingStream) ∧
    ∃ moved selfHit borderHit head,
      move (afterInput directionsInput afterEatingSession).snake = some moved ∧
      checkSelfCollision moved = some selfHit ∧
      checkBorderCollision moved = some borderHit ∧
      getHead moved = some head ∧
      ¬ ((selfHit = true ∨ borderHit = true) ∧
        (head.x = afterEatingSession.food.x ∧ head.y = afterEatingSession.food.y)) ∧
      ((selfHit = true ∨ borderHit = true) →
        ∀ fuel, ∃ g', step fuel (afterInput directionsInput afterEatingSession)
            afterEatingStream = some (g', afterEatingStream) ∧
          g'.score = afterEatingSession.score ∧ g'.food = afterEatingSession.food ∧
          g'.snake.segments.length = afterEatingSession.snake.segments.length) :=
  ⟨eatingFrames_reach,
    no_collision_with_food_reachable eatingFrames eatingStream afterEatingSession
      afterEatingStream directionsInput eatingFrames_reach⟩

/-! ## C8: the step that fills the grid -/

theorem fullBoard_eq_cons : fullBoard = ⟨0, 0⟩ :: fullBoard.tail := by
  rfl

theorem almostFull_segments :
    almostFullSession.snake.segments = ⟨1, 0⟩ :: (fullBoard.tail.tail ++ [⟨0, 15⟩]) := by
  rfl

theorem almostFull_moved :
    offsetHead Direction.LEFT ⟨1, 0⟩ :: (⟨1, 0⟩ :: (fullBoard.tail.tail ++ [⟨0, 15⟩])).dropLast =
      fullBoard := by
  have h : (⟨1, 0⟩ :: (fullBoard.tail.tail ++ [⟨0, 15⟩]) : List Segment) =
      fullBoard.tail ++ [⟨0, 15⟩] := by
    rfl
  rw [h, List.dropLast_concat]
  rfl

/-- C8, as stated, fails: `almostFullSession` is running with a body of 256 cells;
its move puts the head on the food cell (0,0), after which the body covers the whole
grid, and the step never completes, for no amount of fuel and no stream of draws: no
new food cell is committed. -/
theorem step_almostFull_diverges :
    almostFullSession.gameOver = false ∧
    almostFullSession.snake.segments.length = 256 ∧
    (move almostFullSession.snake).bind getHead = some almostFullSession.food ∧
    ¬ ∃ fuel rng, (step fuel almostFullSession rng).isSome = true := by
  refine ⟨rfl, by simp [almostFullSession, fullBoard], by rfl, ?_⟩
  rintro ⟨fuel, rng, h⟩
  cases hs : step fuel almostFullSession rng with
  | none => rw [hs] at h; simp at h
  | some p =>
    obtain ⟨g', rng'⟩ := p
    obtain ⟨hdir, -, -, hres⟩ :=
      step_result fuel almostFullSession rng g' rng' ⟨1, 0⟩ _ almostFull_segments hs
    have hdir' : g'.snake.dir = Direction.LEFT := hdir
    rw [hdir'] at hres
    rcases hres with ⟨hne, -⟩ | ⟨-, ⟨t, -, hbody⟩, -, hoff, k, hk⟩
    · exact hne ⟨rfl, rfl⟩
    · rw [almostFull_moved] at hbody
      obtain ⟨seg, hseg, hxy⟩ := fullBoard_covers g'.food (hk ▸ candidate_inGrid rng k)
      refine (foodOnSnake_false_iff _ _).1 hoff seg ?_ hxy
      rw [hbody]
      exact List.mem_append_left _ hseg

/-! ## C13 -/

theorem movingRight_step (k : Nat) (hk : k < 7) (rng : Rand) :
    step 1 (afterInput (idleInput (3 / 10)) (movingRight k)) rng =
      some (movingRight (k + 1), rng) := by
  interval_cases k <;> rfl

theorem runFrames_movingRight (n k : Nat) (h : k + n ≤ 7) (rng : Rand) :
    runFrames (List.replicate n (1, idleInput (3 / 10))) (movingRight k, rng) =
      some (movingRight (k + n), rng) := by
  induction n generalizing k with
  | zero => rfl
  | succ n ih =>
    have ht : (movingRight k).moveTimer + (idleInput (3 / 10)).frameTime ≥ moveInterval := by
      norm_num [movingRight, idleInput, moveInterval]
    have hf : frame 1 (idleInput (3 / 10)) (movingRight k) rng =
        some (movingRight (k + 1), rng) := by
      rw [frame_running_eq _ _ _ _ rfl, if_pos ht]
      exact movingRight_step k (by omega) rng
    simp only [List.replicate_succ, runFrames, hf]
    rw [ih (k + 1) (by omega)]
    have : k + 1 + n = k + (n + 1) := by omega
    rw [this]

theorem borderFrames_reach :
    runFrames borderFrames (initSession (streamOf [3, 3])) =
      some (borderScenario, (generateFood (streamOf [3, 3])).2) :=
  runFrames_movingRight 7 0 (by omega) (generateFood (streamOf [3, 3])).2

/-- C13: in every session reached from session start by frames, whatever keys the
next frame brings, the discrete step behaves as if the food check stood in an
else-branch of the collision check (it equals `stepElseSpec`), and when a self or
border collision is detected after `move` it processes nothing further: it ends, for
every fuel, in game over with the moved body (not grown), the score and the food it
had before the step, and an untouched random stream. -/
theorem collision_step_reachable (frames : List (Nat × FrameInput)) (rng : Rand)
    (g : Session) (rng' : Rand) (inp : FrameInput)
    (hreach : runFrames frames (initSession rng) = some (g, rng')) :
    ∃ moved selfHit borderHit,
      move (afterInput inp g).snake = some moved ∧
      checkSelfCollision moved = some selfHit ∧
      checkBorderCollision moved = some borderHit ∧
      (∀ fuel, step fuel (afterInput inp g) rng' = stepElseSpec fuel (afterInput inp g) rng') ∧
      ((selfHit = true ∨ borderHit = true) →
        ∀ fuel, step fuel (afterInput inp g) rng' =
          some ({ snake := moved, food := g.food, score := g.score, gameOver := true,
                  moveTimer := 0 }, rng')) := by
  have hinv := sessionInv_afterInput inp g (sessionInv_reachable frames rng g rng' hreach)
  obtain ⟨moved, selfHit, borderHit, head, hm, hs, hb, hh, hnot, -⟩ :=
    inv_step_collision (afterInput inp g) rng' hinv
  obtain ⟨moved2, selfHit2, borderHit2, head2, hm2, hs2, hb2, hh2, hend⟩ :=
    step_collision_no_food (afterInput inp g) rng' hinv.buffer.1
  rw [hm] at hm2
  simp only [Option.some.injEq] at hm2
  subst hm2
  rw [hs] at hs2
  rw [hb] at hb2
  rw [hh] at hh2
  simp only [Option.some.injEq] at hs2 hb2 hh2
  subst hs2 hb2 hh2
  have hcollEnd : (selfHit = true ∨ borderHit = true) →
      ∀ fuel, step fuel (afterInput inp g) rng' =
        some ({ snake := moved, food := g.food, score := g.score, gameOver := true,
                moveTimer := 0 }, rng') :=
    fun hc => hend hc (fun hf => hnot ⟨hc, hf⟩)
  refine ⟨moved, selfHit, borderHit, hm, hs, hb, ?_, hcollEnd⟩
  intro fuel
  by_cases hc : selfHit = true ∨ borderHit = true
  · rw [hcollEnd hc fuel]
    have hor : (selfHit || borderHit) = true := by
      rcases hc with h | h <;> simp [h]
    simp only [stepElseSpec, hm, hs, hb, hh, hor, if_true]
    rfl
  · have hor : (selfHit || borderHit) = false := by
      cases selfHit <;> cases borderHit <;> simp at hc ⊢
    simp only [step, stepElseSpec, hm, hs, hb, hh, hor, Bool.false_eq_true, if_false]

/-- C13 at the session reached by seven idle frames: head (15,8) moving RIGHT, so
that the next step hits the border. -/
theorem collision_step_reachable_witness :
    runFrames borderFrames (initSession (streamOf [3, 3])) =
      some (borderScenario, (generateFood (streamOf [3, 3])).2) ∧
    ∃ moved selfHit borderHit,
      move (afterInput (idleInput (3 / 10)) borderScenario).snake = some moved ∧
      checkSelfCollision moved = some selfHit ∧
      checkBorderCollision moved = some borderHit ∧
      (∀ fuel, step fuel (afterInput (idleInput (3 / 10)) borderScenario)
          (generateFood (streamOf [3, 3])).2 =
        stepElseSpec fuel (afterInput (idleInput (3 / 10)) borderScenario)
          (generateFood (streamOf [3, 3])).2) ∧
      ((selfHit = true ∨ borderHit = true) →
        ∀ fuel, step fuel (afterInput (idleInput (3 / 10)) borderScenario)
            (generateFood (streamOf [3, 3])).2 =
          some ({ snake := moved, food := borderScenario.food, score := borderScenario.score,
                  gameOver := true, moveTimer := 0 }, (generateFood (streamOf [3, 3])).2)) :=
  ⟨borderFrames_reach,
    collision_step_reachable borderFrames (streamOf [3, 3]) borderScenario
      (generateFood (streamOf [3, 3])).2 (idleInput (3 / 10)) borderFrames_reach⟩

/-- The colliding step of C13, evaluated: from the reached session with head (15,8)
the step ends in game over with head (16,8), 3 cells, score 0 and food (3,3), and the
specification's else-branch step gives the same. -/
theorem collision_step_eval :
    (step 1 (afterInput (idleInput (3 / 10)) borderScenario) (streamOf [5, 5])).map
        (fun p => (p.1.gameOver, p.1.snake.segments, p.1.score, p.1.food)) =
      some (true, [⟨16, 8⟩, ⟨15, 8⟩, ⟨14, 8⟩], 0, ⟨3, 3⟩) ∧
    (stepElseSpec 1 (afterInput (idleInput (3 / 10)) borderScenario) (streamOf [5, 5])).map
        (fun p => (p.1.gameOver, p.1.snake.segments, p.1.score, p.1.food)) =
      some (true, [⟨16, 8⟩, ⟨15, 8⟩, ⟨14, 8⟩], 0, ⟨3, 3⟩) := by
  constructor <;> decide

end CppSnake
